import Mathlib

/-!
Verification development for parts of grpc

Adaptation of callables into promise factories (src/core/lib/promise/detail/promise_factory.h).
The header resolves, by C++ overload resolution over nine function templates
named PromiseFactoryImpl, how a callable is turned into a promise factory.
This file embeds

* the static part: which overloads survive their enable_if condition and bind
  the call's arguments, and which of them overload resolution picks;
* the dynamic part: what each overload body does when Make runs, and what the
  promise it returns does when polled, with every invocation of the callable
  recorded in a call log.

It also embeds the URI parser and printer (src/core/util/uri.cc) over byte strings, the
RST_STREAM validator of the bad-client harness (test/core/bad_client/bad_client.cc) and
the sizing of clients and servers in RunScenario (test/cpp/qps/driver.cc).
-/

namespace grpc_core
namespace promise_detail

/-! ## Static part -/

/-- The first argument of PromiseFactoryImpl: `RepeatableToken{}` or `OnceToken{}`
(promise_factory.h:122-123). -/
inductive Token
  | Repeatable
  | Once
  deriving DecidableEq, Repr

/-- How the callable is passed at the call: `std::move(f_)` and `std::declval<F&&>()`
are rvalues, the member `f_` is an lvalue. -/
inductive ValueCategory
  | lvalue
  | rvalue
  deriving DecidableEq, Repr

/-- What the overload set can tell about a result type: whether a value of it can be
called with no arguments (`IsVoidCallable`, promise_factory.h:58-65), whether it is a
`Poll<T>` (`PollTraits::is_poll()`), whether it is `void`, or none of these. -/
inductive ResultShape
  | callable
  | poll
  | plain
  | void
  deriving DecidableEq, Repr

/-- The trait `IsVoidCallable<T>::value` (promise_factory.h:58-65): is `x()` legal for `x : T`. -/
def IsVoidCallable : ResultShape → Bool
  | .callable => true
  | _ => false

/-- Modelled from the spec: `PollTraits<T>::is_poll()` lives in poll.h, which is not among
the sources; a type is a Poll exactly when it is the two-state value Pending / Ready(value). -/
def is_poll : ResultShape → Bool
  | .poll => true
  | _ => false

/-- The test `std::is_same_v<T, void>`. -/
def is_void : ResultShape → Bool
  | .void => true
  | _ => false

/-- The static shape of a callable type `F` for an argument type `A`:
`ResultOf<F(A)>` and `ResultOf<F()>` (promise_factory.h:67-93), each `none` when the call
is ill-formed (substitution failure). -/
structure CallableShape where
  withArg : Option ResultShape
  noArg : Option ResultShape
  deriving DecidableEq, Repr

/-- The nine overloads of PromiseFactoryImpl, in source order. -/
inductive Overload
  /-- The overload at promise_factory.h:125-133, `(Token, F&& f, A&& arg)`, returns a Curried. -/
  | curry
  /-- The overload at promise_factory.h:135-142, `(OnceToken, F f, A&&)`, returns `PromiseLike<F>(f)`. -/
  | onceDropArg
  /-- The overload at promise_factory.h:144-152, `(OnceToken, F f)`, for `F()` a Poll. -/
  | oncePoll
  /-- The overload at promise_factory.h:154-164, `(OnceToken, F f)`, for `F()` a plain value. -/
  | onceValue
  /-- The overload at promise_factory.h:165-175, `(OnceToken, F f)`, for `F()` void. -/
  | onceVoid
  /-- The overload at promise_factory.h:177-184, `(Token, F&& f, A&& arg)`, returns `f(arg)`. -/
  | argPromiseFwd
  /-- The overload at promise_factory.h:186-193, `(Token, F& f, A&& arg)`, returns `f(arg)`. -/
  | argPromiseRef
  /-- The overload at promise_factory.h:195-203, `(Token, F&& f, A&&)`, returns `f()`. -/
  | dropArgPromise
  /-- The overload at promise_factory.h:205-212, `(Token, F&& f)`, returns `f()`. -/
  | nullaryPromise
  deriving DecidableEq, Repr

/-- All overloads, in source order. -/
def Overload.all : List Overload :=
  [.curry, .onceDropArg, .oncePoll, .onceValue, .onceVoid,
   .argPromiseFwd, .argPromiseRef, .dropArgPromise, .nullaryPromise]

/-- The declared type of an overload's token parameter: the deduced template parameter
`Token`, or the fixed type `OnceToken` (written directly or as the result of
`std::enable_if_t<..., OnceToken>`). -/
inductive TokenParam
  | deduced
  | once
  deriving DecidableEq, Repr

/-- The declared type of an overload's callable parameter: `F f`, `F&& f` or `F& f`. -/
inductive FnParam
  | byValue
  | fwdRef
  | lvalueRef
  deriving DecidableEq, Repr

/-- The function parameter list of an overload. -/
structure Signature where
  token : TokenParam
  fn : FnParam
  hasArg : Bool
  deriving DecidableEq, Repr

/-- The parameter list each overload declares. -/
def Overload.signature : Overload → Signature
  | .curry => { token := .deduced, fn := .fwdRef, hasArg := true }
  | .onceDropArg => { token := .once, fn := .byValue, hasArg := true }
  | .oncePoll => { token := .once, fn := .byValue, hasArg := false }
  | .onceValue => { token := .once, fn := .byValue, hasArg := false }
  | .onceVoid => { token := .once, fn := .byValue, hasArg := false }
  | .argPromiseFwd => { token := .deduced, fn := .fwdRef, hasArg := true }
  | .argPromiseRef => { token := .deduced, fn := .lvalueRef, hasArg := true }
  | .dropArgPromise => { token := .deduced, fn := .fwdRef, hasArg := true }
  | .nullaryPromise => { token := .deduced, fn := .fwdRef, hasArg := false }

/-- Evaluate a condition on `ResultOf<...>`: when the call is ill-formed the substitution
fails and the overload is dropped. -/
def onResult (r : Option ResultShape) (cond : ResultShape → Bool) : Bool :=
  match r with
  | none => false
  | some sh => cond sh

/-- The enable_if condition of each overload, as written in the source. -/
def Overload.enabled (F : CallableShape) : Overload → Bool
  | .curry => onResult F.withArg (fun r => !IsVoidCallable r)
  | .onceDropArg => onResult F.noArg (fun r => !IsVoidCallable r)
  | .oncePoll => onResult F.noArg (fun r => !IsVoidCallable r && is_poll r)
  | .onceValue => onResult F.noArg (fun r => !IsVoidCallable r && !is_poll r && !is_void r)
  | .onceVoid => onResult F.noArg (fun r => !IsVoidCallable r && !is_poll r && is_void r)
  | .argPromiseFwd => onResult F.withArg IsVoidCallable
  | .argPromiseRef => onResult F.withArg IsVoidCallable
  | .dropArgPromise => onResult F.noArg IsVoidCallable
  | .nullaryPromise => onResult F.noArg IsVoidCallable

/-- A call `PromiseFactoryImpl(token, f)` or `PromiseFactoryImpl(token, f, a)`. -/
structure CallSite where
  token : Token
  fn : ValueCategory
  hasArg : Bool
  deriving DecidableEq, Repr

/-- Can the token argument initialise the token parameter: a deduced `Token` takes either
token, `OnceToken` only takes `OnceToken{}`. -/
def TokenParam.binds : TokenParam → Token → Bool
  | .deduced, _ => true
  | .once, .Once => true
  | .once, .Repeatable => false

/-- Can the callable argument initialise the callable parameter: `F` and `F&&` take
lvalues and rvalues, the non-const `F&` takes lvalues only. -/
def FnParam.binds : FnParam → ValueCategory → Bool
  | .lvalueRef, .rvalue => false
  | _, _ => true

/-- An overload is viable at a call when the number of arguments matches, every argument
binds, and the enable_if condition holds. Whether `f(a)` and `f()` are well-formed is
taken not to depend on the value category or constness of `f`. -/
def Overload.viable (site : CallSite) (F : CallableShape) (o : Overload) : Bool :=
  (o.signature.hasArg == site.hasArg) && o.signature.token.binds site.token &&
    o.signature.fn.binds site.fn && o.enabled F

/-- Partial ordering of function templates ([temp.deduct.partial]), one direction: every
parameter type of `o1` is at least as specialised as the corresponding one of `o2`,
that is, the parameter of `o2` can be deduced from the parameter of `o1`.

* Token parameter: the deduced `Token` of `o2` accepts anything; the fixed type
  `OnceToken` of `o2` only matches `OnceToken`, not the unique type standing for the
  `Token` of `o1` (the usual tag-dispatch ordering, as GCC and Clang implement it).
* Callable parameter: `F`, `F&&` and `F&` are all `F` once references are removed, so
  deduction succeeds both ways; when both are references, an lvalue reference `F&` is
  more specialised than the forwarding reference `F&&`.
* Argument parameter: `A&&` in every overload that has one. -/
def Overload.atLeastAsSpecialized (o1 o2 : Overload) : Bool :=
  (o2.signature.token == .deduced || o1.signature.token == .once) &&
    !(o1.signature.fn == .fwdRef && o2.signature.fn == .lvalueRef)

/-- One template is more specialised than another. In every viable overload each argument
is taken by an identity conversion (a by-value `F` and a reference to `F` rank the same),
so no overload wins on conversions and this is the only tie-breaker of
[over.match.best] that applies. -/
def Overload.moreSpecialized (o1 o2 : Overload) : Bool :=
  o1.atLeastAsSpecialized o2 && !o2.atLeastAsSpecialized o1

/-- The outcome of overload resolution. -/
inductive Resolution
  | selected (o : Overload)
  | noViable
  | ambiguous
  deriving DecidableEq, Repr

/-- The viable overloads at a call, in source order. -/
def viableSet (site : CallSite) (F : CallableShape) : List Overload :=
  Overload.all.filter (Overload.viable site F)

/-- Overload resolution: the viable overload that is more specialised than every other
viable one; the call is ill-formed when nothing is viable or no such best overload
exists. -/
def resolve (site : CallSite) (F : CallableShape) : Resolution :=
  let vs := viableSet site F
  match vs with
  | [] => .noViable
  | _ =>
    match vs.filter (fun o => vs.all (fun o' => o' == o || o.moreSpecialized o')) with
    | [o] => .selected o
    | _ => .ambiguous

/-- The call inside `OncePromiseFactory<A, F>::Make` (promise_factory.h:231-233) and
`OncePromiseFactory<void, F>::Make` (promise_factory.h:249-251): `OnceToken{}`, `std::move(f_)`. -/
def onceSite (hasArg : Bool) : CallSite :=
  { token := .Once, fn := .rvalue, hasArg := hasArg }

/-- The call inside `RepeatedPromiseFactory<A, F>::Make` (promise_factory.h:271-284) and
`RepeatedPromiseFactory<void, F>::Make` (promise_factory.h:299-304): `RepeatableToken{}`, `f_`. -/
def repeatedSite (hasArg : Bool) : CallSite :=
  { token := .Repeatable, fn := .lvalue, hasArg := hasArg }

/-- The call inside `kIsRepeatedPromiseFactory` (promise_factory.h:307-321):
`RepeatableToken{}`, `std::declval<F&&>()`. -/
def queryCallSite (hasArg : Bool) : CallSite :=
  { token := .Repeatable, fn := .rvalue, hasArg := hasArg }

/-- The variable template `kIsRepeatedPromiseFactory<A, F>` (promise_factory.h:307-321): true
exactly when the call in its `decltype` is well-formed. `hasArg = false` is `A = void`. -/
def kIsRepeatedPromiseFactory (hasArg : Bool) (F : CallableShape) : Bool :=
  match resolve (queryCallSite hasArg) F with
  | .selected _ => true
  | _ => false

/-- The adaptation an overload performs; the two overloads that return `f(arg)` perform
the same one. -/
inductive Rule
  | capture
  | wrapDroppingArg
  | wrapPoll
  | eagerValue
  | eagerEffect
  | useWithArg
  | useDroppingArg
  | useNullary
  deriving DecidableEq, Repr

/-- The adaptation rule of each overload. -/
def Overload.rule : Overload → Rule
  | .curry => .capture
  | .onceDropArg => .wrapDroppingArg
  | .oncePoll => .wrapPoll
  | .onceValue => .eagerValue
  | .onceVoid => .eagerEffect
  | .argPromiseFwd => .useWithArg
  | .argPromiseRef => .useWithArg
  | .dropArgPromise => .useDroppingArg
  | .nullaryPromise => .useNullary

/-- The adaptation rules of the viable overloads, without repetition. -/
def applicableRules (site : CallSite) (F : CallableShape) : List Rule :=
  ((viableSet site F).map Overload.rule).dedup

/-! ## Dynamic part -/

/-- Modelled from the spec: `Poll<T>` lives in poll.h, which is not among the sources; it
is the two-state result Pending or Ready(value). -/
inductive Poll (T : Type)
  | pending
  | ready (value : T)
  deriving DecidableEq, Repr

/-- Apply a function to the value of a ready poll. -/
def Poll.map {T U : Type} (h : T → U) : Poll T → Poll U
  | .pending => .pending
  | .ready v => .ready (h v)

/-- What a ready poll of an adapted promise carries: a value of the value type `T`, the
value `Empty{}`, or (when a nullary callable is wrapped whose own result is callable)
that result object. -/
inductive Payload (T P : Type)
  | value (v : T)
  | empty
  | object (p : P)
  deriving DecidableEq, Repr

/-- The value a call of the given result shape produces: a nullary callable object of
type `P`, a `Poll<T>`, a `T`, or nothing. -/
def ResultShape.Val (T P : Type) : ResultShape → Type
  | .callable => P
  | .poll => Poll T
  | .plain => T
  | .void => Unit

/-- A callable type `F` together with the argument type `A`. An object of type `F` has a
state of type `S` of its own (its captures, copied and moved with it); `W` is the state
outside the object. `withArg` is `F::operator()(A)` and `noArg` is `F::operator()()`:
each is absent when the call is ill-formed, and otherwise gives the shape of the result
type and the function from the object's state, the argument and the outside state to
the result, the object's new state and the new outside state. `resultPoll` is the
`operator()` of the promise type that `F` returns when it returns a promise. -/
structure Callable (S W A T P : Type) where
  withArg : Option ((sh : ResultShape) × (S → A → W → sh.Val T P × S × W))
  noArg : Option ((sh : ResultShape) × (S → W → sh.Val T P × S × W))
  resultPoll : P → W → Poll T × P × W

/-- The static shape of a callable: `ResultOf<F(A)>` and `ResultOf<F()>`
(promise_factory.h:67-93). -/
def Callable.shape {S W A T P : Type} (F : Callable S W A T P) : CallableShape :=
  { withArg := F.withArg.map (fun c => c.1), noArg := F.noArg.map (fun c => c.1) }

/-- One invocation of the factory's callable, as a spy records it. -/
inductive CallEvent (A : Type)
  | withArg (a : A)
  | noArg
  deriving DecidableEq, Repr

/-- The state of the program around the factory: the outside state the callable can
read and write, and the record of every invocation of the callable, oldest first. -/
structure World (W A : Type) where
  ext : W
  calls : List (CallEvent A)
  deriving DecidableEq, Repr

/-- Evaluate `f(arg)`: run the call operator and record the invocation. -/
def invokeWithArg {S W A R : Type} (call : S → A → W → R × S × W) (f : S) (arg : A)
    (w : World W A) : R × S × World W A :=
  ((call f arg w.ext).1, (call f arg w.ext).2.1,
    { ext := (call f arg w.ext).2.2, calls := w.calls ++ [CallEvent.withArg arg] })

/-- Evaluate `f()`: run the call operator and record the invocation. -/
def invokeNoArg {S W A R : Type} (call : S → W → R × S × W) (f : S)
    (w : World W A) : R × S × World W A :=
  ((call f w.ext).1, (call f w.ext).2.1,
    { ext := (call f w.ext).2.2, calls := w.calls ++ [CallEvent.noArg] })

/-- Modelled from the spec: `WrapInPoll` and `PromiseLike` live in promise_like.h, which is
not among the sources. A promise returns a Poll when polled; `PromiseLike<F>` forwards
the call to `F` and lifts the result: a Poll is passed on unchanged, a plain result `v`
becomes Ready(v), and a call that yields nothing becomes Ready(Empty). -/
def WrapInPoll {T P : Type} : (sh : ResultShape) → sh.Val T P → Poll (Payload T P)
  | .callable, p => .ready (.object p)
  | .poll, r => Poll.map Payload.value r
  | .plain, v => .ready (.value v)
  | .void, _ => .ready .empty

/-- The class `Curried<F, Arg>` (promise_factory.h:97-112): the captured callable `f_` and the
captured argument `arg_`. `call` is `F::operator()(Arg)`; `arg_` is `none` once it has
been moved from. -/
structure Curried (S W A R : Type) where
  call : S → A → W → R × S × W
  f_ : S
  arg_ : Option A

/-- The call operator `Curried::operator()` (promise_factory.h:104): `return f_(std::move(arg_));`. Invoking it
again, on the moved-from argument, is outside its contract and gives `none`. -/
def Curried.invoke {S W A R : Type} (c : Curried S W A R) (w : World W A) :
    Option (R × Curried S W A R × World W A) :=
  match c.arg_ with
  | none => none
  | some a =>
    some ((invokeWithArg c.call c.f_ a w).1,
      { call := c.call, f_ := (invokeWithArg c.call c.f_ a w).2.1, arg_ := none },
      (invokeWithArg c.call c.f_ a w).2.2)

/-- The promise objects the overloads of PromiseFactoryImpl return. -/
inductive MadePromise (S W A T P : Type)
  /-- The promise `PromiseLike<Curried<RemoveCVRef<F>, A>>` (promise_factory.h:132). -/
  | curried (sh : ResultShape) (c : Curried S W A (sh.Val T P))
  /-- The promise `PromiseLike<F>(std::move(f))` (promise_factory.h:141 and 151): `call` is `F::operator()()`. -/
  | wrapped (sh : ResultShape) (call : S → W → sh.Val T P × S × W) (f : S)
  /-- The lambda `[x = f()]() mutable { return std::move(x); }` (promise_factory.h:162);
  `x` is `none` once it has been moved from. -/
  | immediate (x : Option T)
  /-- The lambda `[]() { return Empty{}; }` (promise_factory.h:173). -/
  | emptyReady
  /-- The wrapper `PromiseLike` around the promise `p` that `f(arg)` or `f()` returned
  (promise_factory.h:183, 192, 202, 211): `run` is the `operator()` of `p`. -/
  | direct (run : P → W → Poll T × P × W) (p : P)

/-- Poll an adapted promise once: the Poll it returns, the promise afterwards and the
world afterwards; `none` when the poll is outside the promise's contract (a value that
was already moved out). -/
def MadePromise.poll {S W A T P : Type} :
    MadePromise S W A T P → World W A →
      Option (Poll (Payload T P) × MadePromise S W A T P × World W A)
  | .curried sh c, w =>
    match c.invoke w with
    | none => none
    | some r => some (WrapInPoll sh r.1, .curried sh r.2.1, r.2.2)
  | .wrapped sh call f, w =>
    some (WrapInPoll sh (invokeNoArg call f w).1,
      .wrapped sh call (invokeNoArg call f w).2.1, (invokeNoArg call f w).2.2)
  | .immediate x, w =>
    match x with
    | none => none
    | some v => some (.ready (.value v), .immediate none, w)
  | .emptyReady, w => some (.ready .empty, .emptyReady, w)
  | .direct run p, w =>
    some (Poll.map Payload.value (run p w.ext).1, .direct run (run p w.ext).2.1,
      { ext := (run p w.ext).2.2, calls := w.calls })

/-- The bodies of the nine overloads of PromiseFactoryImpl (promise_factory.h:125-212). `f` is
the callable object passed, `arg` the argument passed (`none` for the two-argument
calls). The result is the promise returned, the callable object as the caller finds it
afterwards (an overload that takes `F f` by value works on its own copy, one that
takes a reference and invokes `f` changes the caller's object) and the world
afterwards; `none` when the overload cannot be instantiated for this callable and call. -/
def PromiseFactoryImpl {S W A T P : Type} (o : Overload) (F : Callable S W A T P) (f : S)
    (arg : Option A) (w : World W A) :
    Option (MadePromise S W A T P × S × World W A) :=
  match o, F.withArg, F.noArg, arg with
  | .curry, some ⟨sh, call⟩, _, some a =>
    some (.curried sh { call := call, f_ := f, arg_ := some a }, f, w)
  | .onceDropArg, _, some ⟨sh, call⟩, some _ =>
    some (.wrapped sh call f, f, w)
  | .oncePoll, _, some ⟨sh, call⟩, none =>
    some (.wrapped sh call f, f, w)
  | .onceValue, _, some ⟨.plain, call⟩, none =>
    some (.immediate (some (invokeNoArg call f w).1), f, (invokeNoArg call f w).2.2)
  | .onceVoid, _, some ⟨.void, call⟩, none =>
    some (.emptyReady, f, (invokeNoArg call f w).2.2)
  | .argPromiseFwd, some ⟨.callable, call⟩, _, some a =>
    some (.direct F.resultPoll (invokeWithArg call f a w).1,
      (invokeWithArg call f a w).2.1, (invokeWithArg call f a w).2.2)
  | .argPromiseRef, some ⟨.callable, call⟩, _, some a =>
    some (.direct F.resultPoll (invokeWithArg call f a w).1,
      (invokeWithArg call f a w).2.1, (invokeWithArg call f a w).2.2)
  | .dropArgPromise, _, some ⟨.callable, call⟩, some _ =>
    some (.direct F.resultPoll (invokeNoArg call f w).1,
      (invokeNoArg call f w).2.1, (invokeNoArg call f w).2.2)
  | .nullaryPromise, _, some ⟨.callable, call⟩, none =>
    some (.direct F.resultPoll (invokeNoArg call f w).1,
      (invokeNoArg call f w).2.1, (invokeNoArg call f w).2.2)
  | _, _, _, _ => none

/-- The call `PromiseFactoryImpl(token, f, [arg])` as the compiler resolves it: the
selected overload's body runs; when no overload is selected the call does not build. -/
def callPromiseFactoryImpl {S W A T P : Type} (site : CallSite) (F : Callable S W A T P)
    (f : S) (arg : Option A) (w : World W A) :
    Option (MadePromise S W A T P × S × World W A) :=
  match resolve site F.shape with
  | .selected o => PromiseFactoryImpl o F f arg w
  | _ => none

/-- The method `OncePromiseFactory<A, F>::Make(Arg&& a)` (promise_factory.h:231-233). The factory's callable
is moved out, so only the promise and the world are returned; `none` when the class
does not build for this callable. -/
def OncePromiseFactory.Make {S W A T P : Type} (F : Callable S W A T P) (f_ : S) (a : A)
    (w : World W A) : Option (MadePromise S W A T P × World W A) :=
  (callPromiseFactoryImpl (onceSite true) F f_ (some a) w).map (fun r => (r.1, r.2.2))

/-- The method `OncePromiseFactory<void, F>::Make()` (promise_factory.h:249-251). -/
def OncePromiseFactory.MakeVoid {S W A T P : Type} (F : Callable S W A T P) (f_ : S)
    (w : World W A) : Option (MadePromise S W A T P × World W A) :=
  (callPromiseFactoryImpl (onceSite false) F f_ none w).map (fun r => (r.1, r.2.2))

/-- The method `RepeatedPromiseFactory<A, F>::Make(Arg&& a)` (promise_factory.h:271-284): the promise, the
factory's stored callable `f_` afterwards, and the world. -/
def RepeatedPromiseFactory.Make {S W A T P : Type} (F : Callable S W A T P) (f_ : S) (a : A)
    (w : World W A) : Option (MadePromise S W A T P × S × World W A) :=
  callPromiseFactoryImpl (repeatedSite true) F f_ (some a) w

/-- The method `RepeatedPromiseFactory<void, F>::Make()` (promise_factory.h:299-304). -/
def RepeatedPromiseFactory.MakeVoid {S W A T P : Type} (F : Callable S W A T P) (f_ : S)
    (w : World W A) : Option (MadePromise S W A T P × S × World W A) :=
  callPromiseFactoryImpl (repeatedSite false) F f_ none w

/-- The adaptation rule overload resolution ends up with, if it selects an overload. -/
def Resolution.selectedRule : Resolution → Option Rule
  | .selected o => some o.rule
  | _ => none

/-! ## Concrete callables and schedules used as inputs -/

/-- A function object with two call operators and no state: `f(a)` returns `a + 1` and
`f()` returns `0`, both plain values. -/
def twoArity : Callable Unit Unit Nat Nat Unit :=
  { withArg := some ⟨ResultShape.plain, fun s a e => (a + 1, s, e)⟩,
    noArg := some ⟨ResultShape.plain, fun s e => ((0 : Nat), s, e)⟩,
    resultPoll := fun p e => (Poll.pending, p, e) }

/-- A function object with one call operator: `f(a)` returns `a + 1` and counts its
invocations in the outside state. It cannot be called without an argument. -/
def addOne : Callable Unit Nat Nat Nat Unit :=
  { withArg := some ⟨ResultShape.plain, fun s a e => (a + 1, s, e + 1)⟩,
    noArg := none,
    resultPoll := fun p e => (Poll.pending, p, e) }

/-- The world before anything has run: the given outside state and an empty call record. -/
def World.initial {W A : Type} (e : W) : World W A :=
  { ext := e, calls := [] }

/-- The operations of a client that holds one Repeated factory and makes two promises
from it, with the arguments `a1` and `a2`, and polls each of them once. -/
inductive FactoryStep
  | make1
  | make2
  | poll1
  | poll2
  deriving DecidableEq, Repr

/-- The state of that client: the factory's stored callable, the world, the two promises
once made, and the two poll results once obtained. -/
structure TwoPromises (S W A T P : Type) where
  f_ : S
  world : World W A
  promise1 : Option (MadePromise S W A T P)
  promise2 : Option (MadePromise S W A T P)
  result1 : Option (Poll (Payload T P))
  result2 : Option (Poll (Payload T P))

/-- The client before it has done anything. -/
def TwoPromises.start {S W A T P : Type} (f_ : S) (w : World W A) : TwoPromises S W A T P :=
  { f_ := f_, world := w, promise1 := none, promise2 := none, result1 := none, result2 := none }

/-- One operation of the client; `none` when the factory does not build, a promise is
polled before it was made, or a poll is outside the promise's contract. -/
def TwoPromises.step {S W A T P : Type} (F : Callable S W A T P) (a1 a2 : A)
    (st : TwoPromises S W A T P) : FactoryStep → Option (TwoPromises S W A T P)
  | .make1 =>
    match RepeatedPromiseFactory.Make F st.f_ a1 st.world with
    | none => none
    | some r => some { st with f_ := r.2.1, world := r.2.2, promise1 := some r.1 }
  | .make2 =>
    match RepeatedPromiseFactory.Make F st.f_ a2 st.world with
    | none => none
    | some r => some { st with f_ := r.2.1, world := r.2.2, promise2 := some r.1 }
  | .poll1 =>
    match st.promise1 with
    | none => none
    | some p =>
      match p.poll st.world with
      | none => none
      | some r => some { st with world := r.2.2, promise1 := some r.2.1, result1 := some r.1 }
  | .poll2 =>
    match st.promise2 with
    | none => none
    | some p =>
      match p.poll st.world with
      | none => none
      | some r => some { st with world := r.2.2, promise2 := some r.2.1, result2 := some r.1 }

/-- Run a sequence of operations of the client. -/
def TwoPromises.run {S W A T P : Type} (F : Callable S W A T P) (a1 a2 : A) :
    List FactoryStep → TwoPromises S W A T P → Option (TwoPromises S W A T P)
  | [], st => some st
  | op :: rest, st =>
    match st.step F a1 a2 op with
    | none => none
    | some st2 => TwoPromises.run F a1 a2 rest st2

/-- A function object without argument that returns a Poll: `f()` returns Ready(7) and
counts its invocations in the outside state. It is itself a promise. -/
def readySeven : Callable Unit Nat Nat Nat Unit :=
  { withArg := none,
    noArg := some ⟨ResultShape.poll, fun s e => (Poll.ready 7, s, e + 1)⟩,
    resultPoll := fun p e => (Poll.pending, p, e) }

/-- A function object without argument that yields nothing: `f()` only counts its
invocations in the outside state. -/
def countOnly : Callable Unit Nat Nat Nat Unit :=
  { withArg := none,
    noArg := some ⟨ResultShape.void, fun s e => ((), s, e + 1)⟩,
    resultPoll := fun p e => (Poll.pending, p, e) }

/-! ## Promise primitives of promise.h

The header promise.h is not among the sources; only its test, promise_test.cc, is. The
definitions of this section follow the specification. -/

/-- Modelled from the spec: the Promise capability of promise.h, which is not among the
sources: "anything invocable with zero arguments returning Poll<T>", whose "internal
state may change between polls". `St` is the state of the promise object, `W` the
state outside it; a poll gives the Poll, the promise afterwards and the outside state
afterwards, and `none` when it is outside the promise's contract. -/
abbrev PromisePoll (St W T : Type) : Type :=
  St → W → Option (Poll T × St × W)

/-- Modelled from the spec: the class `Immediate` of promise.h, which is not among the
sources: "constructed with a concrete value; its single defined behavior is: first poll
returns Ready(value) and moves the value out; must not be polled twice". `value_` is
`none` once the value has been moved out. -/
structure Immediate (T : Type) where
  value_ : Option T
  deriving DecidableEq, Repr

/-- Modelled from the spec: the constructor `Immediate(value)` of promise.h, which is not
among the sources: the promise holds the given value. -/
def Immediate.make {T : Type} (value : T) : Immediate T :=
  { value_ := some value }

/-- Modelled from the spec: the call operator of `Immediate` (promise.h, not among the
sources): the first poll returns Ready(value) and moves the value out; a second poll is
outside the contract. -/
def Immediate.poll {T W : Type} : PromisePoll (Immediate T) W T :=
  fun p w =>
    match p.value_ with
    | none => none
    | some v => some (Poll.ready v, { value_ := none }, w)

/-- Modelled from the spec: the function `NowOrNever` of promise.h, which is not among the
sources: "given a Promise, invoke poll exactly once; if Ready, return the value; if
Pending, return no value". The result is the optional value and the outside state the
poll left. -/
def NowOrNever {St W T : Type} (poll : PromisePoll St W T) (promise : St) (w : W) :
    Option (Option T × W) :=
  match poll promise w with
  | none => none
  | some (Poll.ready v, _, w') => some (some v, w')
  | some (Poll.pending, _, w') => some (none, w')

/-- Modelled from the spec: the wrapper that `AssertResultType` of promise.h (not among the
sources) puts around a promise: it "wraps a Promise" and holds nothing else. -/
structure AssertedPromise (St : Type) where
  promise : St
  deriving DecidableEq, Repr

/-- Modelled from the spec: the function `AssertResultType<T>(promise)` of promise.h, which
is not among the sources: it "at build time requires the wrapped Promise's value type
to equal the declared expected type" and "has no runtime branch". `expected` is the
declared type `T`, `actual` the value type of the wrapped promise, both names of
types; the result is `none` when the build is rejected. -/
def AssertResultType {Ty St : Type} [DecidableEq Ty] (expected actual : Ty) (promise : St) :
    Option (AssertedPromise St) :=
  if expected = actual then some { promise := promise } else none

/-- Modelled from the spec: the call operator of the assertion wrapper (promise.h, not
among the sources): it "forwards poll calls unchanged" to the wrapped promise. -/
def AssertedPromise.poll {St W T : Type} (poll : PromisePoll St W T) :
    PromisePoll (AssertedPromise St) W T :=
  fun a w =>
    match poll a.promise w with
    | none => none
    | some r => some (r.1, { promise := r.2.1 }, r.2.2)

/-- Poll a promise the given number of times in a row: the Polls returned, in order, up to
the first poll outside the contract, and the outside state at the end. -/
def pollTimes {St W T : Type} (poll : PromisePoll St W T) : Nat → St → W → List (Poll T) × W
  | 0, _, w => ([], w)
  | n + 1, s, w =>
    match poll s w with
    | none => ([], w)
    | some r => (r.1 :: (pollTimes poll n r.2.1 r.2.2).1, (pollTimes poll n r.2.1 r.2.2).2)

/-- Modelled from the spec: a structured, JSON-like value (json.h is not among the
sources): a string or an object with named members. -/
inductive Json
  | string (s : String)
  | object (members : List (String × Json))

mutual
/-- Modelled from the spec: the function `JsonDump` of json_writer.h, which is not among the
sources: the text of a structured value; "an empty object serializes to" the text of an
opening and a closing brace. A string is written between double quotes. -/
def JsonDump : Json → String
  | .string s => "\"" ++ s ++ "\""
  | .object members => "\x7b" ++ JsonDumpMembers members ++ "\x7d"
/-- Modelled from the spec: the members of an object as `JsonDump` writes them: key, colon
and value, separated by commas; nothing for no members. -/
def JsonDumpMembers : List (String × Json) → String
  | [] => ""
  | [(k, v)] => "\"" ++ k ++ "\":" ++ JsonDump v
  | (k, v) :: m :: rest => "\"" ++ k ++ "\":" ++ JsonDump v ++ "," ++ JsonDumpMembers (m :: rest)
end

/-- Modelled from the spec: what the diagnostic probe sees of a promise type (promise.h is
not among the sources): a promise implementation "may optionally expose a
to-structured-value operation". `ToJson` is that operation, absent when the type has
none. -/
structure PromiseType (St : Type) where
  ToJson : Option (St → Json)

/-- Modelled from the spec: the variable template `kHasToJsonMethod` of promise.h, which is
not among the sources: the presence of the operation, detected "purely by static
introspection". -/
def kHasToJsonMethod {St : Type} (P : PromiseType St) : Bool :=
  P.ToJson.isSome

/-- Modelled from the spec: the function `PromiseAsJson` of promise.h, which is not among
the sources: "if present, use it for tracing dumps; if absent, tracing tooling reports
the absence rather than failing"; `none` is the report of the absence. -/
def PromiseAsJson {St : Type} (P : PromiseType St) (promise : St) : Option Json :=
  match P.ToJson with
  | none => none
  | some toJson => some (toJson promise)

/-- The value types the test of `AssertResultType` names (promise_test.cc:33-37): `int`,
`double` and `std::string`. -/
inductive CppType
  | int
  | double
  | string
  deriving DecidableEq, Repr

/-- The class `FooPromise` of the test (promise_test.cc:49-52): its `ToJson` returns the empty
object. -/
def FooPromise : PromiseType Unit :=
  { ToJson := some (fun _ => Json.object []) }

/-- The type of the lambda `[]() { return 42; }` of the test (promise_test.cc:44), a plain
nullary callable: it has no `ToJson`. -/
def plainLambda : PromiseType Unit :=
  { ToJson := none }

/-- A promise that is never ready and counts its polls in the outside state. -/
def countingPending : PromisePoll Unit Nat Nat :=
  fun s n => some (Poll.pending, s, n + 1)

end promise_detail

/-! ## URIs (src/core/util/uri.cc) -/

/-- A `char` of a `std::string` or an `absl::string_view`: one byte. -/
abbrev Byte : Type := Fin 256

/-- The contents of a `std::string` or an `absl::string_view`: a sequence of bytes. -/
abbrev Bytes : Type := List Byte

/-- The byte of an ASCII character literal. -/
def ch (c : Char) : Byte := Fin.ofNat c.toNat

/-- The bytes of an ASCII string literal. -/
def lit (s : String) : Bytes := s.toList.map ch

/-- The library predicate `absl::ascii_isalpha` (and `isalpha` in the C locale): a letter
`A`-`Z` or `a`-`z`. -/
def ascii_isalpha (c : Byte) : Bool :=
  (65 ≤ c.val && c.val ≤ 90) || (97 ≤ c.val && c.val ≤ 122)

/-- The library predicate `absl::ascii_isdigit`: a digit `0`-`9`. -/
def ascii_isdigit (c : Byte) : Bool :=
  48 ≤ c.val && c.val ≤ 57

/-- The library predicate `absl::ascii_isalnum`: a letter or a digit. -/
def ascii_isalnum (c : Byte) : Bool :=
  ascii_isalpha c || ascii_isdigit c

/-- The library predicate `absl::ascii_isxdigit`: a digit, `A`-`F` or `a`-`f`. -/
def ascii_isxdigit (c : Byte) : Bool :=
  ascii_isdigit c || (65 ≤ c.val && c.val ≤ 70) || (97 ≤ c.val && c.val ≤ 102)

/-- The library function `absl::ascii_toupper`: `a`-`z` become `A`-`Z`. -/
def ascii_toupper (c : Byte) : Byte :=
  if 97 ≤ c.val && c.val ≤ 122 then Fin.ofNat (c.val - 32) else c

/-- The library function `absl::ascii_tolower`: `A`-`Z` become `a`-`z`. -/
def ascii_tolower (c : Byte) : Byte :=
  if 65 ≤ c.val && c.val ≤ 90 then Fin.ofNat (c.val + 32) else c

/-- The library function `absl::AsciiStrToUpper`. -/
def AsciiStrToUpper (s : Bytes) : Bytes := s.map ascii_toupper

/-- The library function `absl::AsciiStrToLower`. -/
def AsciiStrToLower (s : Bytes) : Bytes := s.map ascii_tolower

/-- The function IsSubDelimChar (uri.cc:46-62). -/
def IsSubDelimChar (c : Byte) : Bool :=
  c == ch '!' || c == ch '$' || c == ch '&' || c == Fin.ofNat 39 || c == ch '(' ||
    c == ch ')' || c == ch '*' || c == ch '+' || c == ch ',' || c == ch ';' || c == ch '='

/-- The function IsUnreservedChar (uri.cc:66-76). -/
def IsUnreservedChar (c : Byte) : Bool :=
  if ascii_isalnum c then true
  else c == ch '-' || c == ch '.' || c == ch '_' || c == ch '~'

/-- The function IsSchemeChar (uri.cc:80-89). -/
def IsSchemeChar (c : Byte) : Bool :=
  if ascii_isalnum c then true
  else c == ch '+' || c == ch '-' || c == ch '.'

/-- The function IsAuthorityChar (uri.cc:93-104). -/
def IsAuthorityChar (c : Byte) : Bool :=
  if IsUnreservedChar c then true
  else if IsSubDelimChar c then true
  else c == ch ':' || c == ch '[' || c == ch ']' || c == ch '@'

/-- The function IsUserInfoChar (uri.cc:108-113). -/
def IsUserInfoChar (c : Byte) : Bool :=
  if IsUnreservedChar c then true
  else if IsSubDelimChar c then true
  else if c == ch ':' then true
  else false

/-- The function IsHostPortChar (uri.cc:117-127). -/
def IsHostPortChar (c : Byte) : Bool :=
  if IsUnreservedChar c then true
  else if IsSubDelimChar c then true
  else c == ch ':' || c == ch '[' || c == ch ']'

/-- The function IsPChar (uri.cc:131-140). -/
def IsPChar (c : Byte) : Bool :=
  if IsUnreservedChar c then true
  else if IsSubDelimChar c then true
  else c == ch ':' || c == ch '@'

/-- The function IsPathChar (uri.cc:144). -/
def IsPathChar (c : Byte) : Bool := IsPChar c || c == ch '/'

/-- The function IsQueryOrFragmentChar (uri.cc:149-151). -/
def IsQueryOrFragmentChar (c : Byte) : Bool :=
  IsPChar c || c == ch '/' || c == ch '?'

/-- The function IsQueryKeyOrValueChar (uri.cc:154-156). -/
def IsQueryKeyOrValueChar (c : Byte) : Bool :=
  c != ch '&' && c != ch '=' && IsQueryOrFragmentChar c

/-- The lower-case hexadecimal digit of a value below 16, as `absl::BytesToHexString`
writes it. -/
def kHexChar (n : Nat) : Byte :=
  if n < 10 then Fin.ofNat (48 + n) else Fin.ofNat (87 + n)

/-- The library function `absl::BytesToHexString`: two lower-case hexadecimal digits for
every byte, the high one first. -/
def BytesToHexString (s : Bytes) : Bytes :=
  s.flatMap (fun c => [kHexChar (c.val / 16), kHexChar (c.val % 16)])

/-- The function PercentEncode (uri.cc:160-178): a copy of `str` in which every byte that
`is_allowed_char` rejects is replaced by a percent sign and the upper-cased hexadecimal
form of the byte. -/
def PercentEncode (str : Bytes) (is_allowed_char : Byte → Bool) : Bytes :=
  match str with
  | [] => []
  | c :: rest =>
    if !is_allowed_char c then
      (ch '%' :: AsciiStrToUpper (BytesToHexString [c])) ++ PercentEncode rest is_allowed_char
    else
      c :: PercentEncode rest is_allowed_char

/-- The function IsQueryOrFragmentString (uri.cc:182-187). -/
def IsQueryOrFragmentString (str : Bytes) : Bool :=
  str.all (fun c => !(!IsQueryOrFragmentChar c && c != ch '%'))

/-- The function `URI::PercentEncodeAuthority` (uri.cc:198-200). -/
def URI.PercentEncodeAuthority (str : Bytes) : Bytes :=
  PercentEncode str IsAuthorityChar

/-- The function `URI::PercentEncodePath` (uri.cc:202-204). -/
def URI.PercentEncodePath (str : Bytes) : Bytes :=
  PercentEncode str IsPathChar

/-- The value of a hexadecimal digit, as `absl::CUnescape` reads it. -/
def hex_digit_to_int (c : Byte) : Nat :=
  if ascii_isdigit c then c.val - 48
  else if 65 ≤ c.val && c.val ≤ 70 then c.val - 55
  else c.val - 87

/-- The library function `absl::CUnescape` on the four bytes backslash, `x`, `a`, `b`, as
uri.cc:218 calls it: `none` when it reports an error, otherwise the unescaped text. After
the backslash and `x` it reads all hexadecimal digits that follow, at least one, as
one byte; a byte `b` that is not a digit is copied, unless it is a backslash, which
cannot end the text. -/
def CUnescapeHex (a b : Byte) : Option Bytes :=
  if !ascii_isxdigit a then none
  else if ascii_isxdigit b then some [Fin.ofNat (hex_digit_to_int a * 16 + hex_digit_to_int b)]
  else if b == Fin.ofNat 92 then none
  else some [Fin.ofNat (hex_digit_to_int a), b]

/-- The loop of `URI::PercentDecode` (uri.cc:215-226) from position `i` on, as a function of
the text that is left: a percent sign followed by at least two bytes that unescape to
one byte is replaced by that byte, every other byte is copied. -/
def URI.PercentDecodeLoop : Bytes → Bytes
  | [] => []
  | [c] => [c]
  | [c, d] => c :: URI.PercentDecodeLoop [d]
  | c :: a :: b :: rest =>
    if c == ch '%' && (match CUnescapeHex a b with
        | some unescaped => unescaped.length == 1
        | none => false) then
      (match CUnescapeHex a b with
        | some (u :: _) => u
        | _ => c) :: URI.PercentDecodeLoop rest
    else
      c :: URI.PercentDecodeLoop (a :: b :: rest)

/-- The function `URI::PercentDecode` (uri.cc:208-228). -/
def URI.PercentDecode (str : Bytes) : Bytes :=
  if str.isEmpty || !str.contains (ch '%') then str
  else URI.PercentDecodeLoop str

/-- The constants the searches of `absl::string_view` return are positions; `npos` is
`none`. This is `find_first_of(chars)`: the position of the first byte that occurs in
`chars`. -/
def find_first_of (s chars : Bytes) : Option Nat :=
  match s with
  | [] => none
  | c :: rest =>
    if chars.contains c then some 0 else (find_first_of rest chars).map (fun i => i + 1)

/-- The search `find_first_not_of(chars)`: the position of the first byte that does not
occur in `chars`. -/
def find_first_not_of (s chars : Bytes) : Option Nat :=
  match s with
  | [] => none
  | c :: rest =>
    if !chars.contains c then some 0 else (find_first_not_of rest chars).map (fun i => i + 1)

/-- The search `find(c)`: the position of the first occurrence of the byte `c`. -/
def find (s : Bytes) (c : Byte) : Option Nat :=
  match s with
  | [] => none
  | d :: rest => if d == c then some 0 else (find rest c).map (fun i => i + 1)

/-- The search `rfind(c)`: the position of the last occurrence of the byte `c`. -/
def rfind (s : Bytes) (c : Byte) : Option Nat :=
  match s with
  | [] => none
  | d :: rest =>
    match rfind rest c with
    | some i => some (i + 1)
    | none => if d == c then some 0 else none

/-- The member `substr(pos, n)` for `pos` within the text: at most `n` bytes from position
`pos` on, all of them when `n` is `npos`. -/
def substr (s : Bytes) (pos : Nat) (n : Option Nat) : Bytes :=
  match n with
  | none => s.drop pos
  | some k => (s.drop pos).take k

/-- The library function `absl::ConsumePrefix`: the text without the expected start when it
starts with it, `none` (the text is left alone, the result is false) otherwise. -/
def ConsumePrefix (str expected : Bytes) : Option Bytes :=
  if expected.isPrefixOf str then some (str.drop expected.length) else none

/-- The library function `absl::StartsWith`. -/
def StartsWith (text start : Bytes) : Bool := start.isPrefixOf text

/-- The library function `absl::StrSplit(text, delimiter)` for a one-byte delimiter: the
pieces between the delimiters, empty ones included. -/
def StrSplit (text : Bytes) (delimiter : Byte) : List Bytes := text.splitOn delimiter

/-- The library function `absl::StrSplit(text, absl::MaxSplits(delimiter, 1))` converted to
a pair: the text before the first delimiter and the text after it, the whole text and
the empty text when there is no delimiter. -/
def StrSplitMaxSplits1 (text : Bytes) (delimiter : Byte) : Bytes × Bytes :=
  match find text delimiter with
  | none => (text, [])
  | some i => (text.take i, text.drop (i + 1))

/-- The library function `absl::StrJoin(parts, separator)`. -/
def StrJoin (parts : List Bytes) (separator : Bytes) : Bytes := separator.intercalate parts

/-- The set of bytes the scheme may consist of, as uri.cc:246-248 spells it. -/
def kSchemeAlphabet : Bytes :=
  lit "ABCDEFGHIJKLMNOPQRSTUVWXYZabcdefghijklmnopqrstuvwxyz0123456789+-."

/-- The type `URI::QueryParam`: a key and a value. -/
structure URI.QueryParam where
  key : Bytes
  value : Bytes
  deriving DecidableEq, Repr

/-- Modelled from the spec: the class URI is declared in uri.h, which is not among the
sources; its members are the ones uri.cc:347-388 initialises and assigns. The member
`query_parameter_map_` is a `std::map` from key to value; it is kept here as the list of
its entries, one per key, and the order of the entries carries no meaning. Whether the
keys and values of the map are strings of their own or views into
`query_parameter_pairs_` is declared in uri.h; an entry is recorded here with the text
it was written with, which is what either kind of map holds as long as the pairs it
was written from are in place. -/
structure URI where
  scheme_ : Bytes
  user_info_ : Bytes
  host_port_ : Bytes
  path_ : Bytes
  query_parameter_map_ : List (Bytes × Bytes)
  query_parameter_pairs_ : List URI.QueryParam
  fragment_ : Bytes
  deriving DecidableEq, Repr

/-- The lookup `std::map::find`: the value stored under a key, if the map has the key. -/
def map_find (m : List (Bytes × Bytes)) (k : Bytes) : Option Bytes :=
  match m with
  | [] => none
  | e :: rest => if e.1 == k then some e.2 else map_find rest k

/-- The statement `m[k] = v` on a `std::map`: the entry of `k` is overwritten when there
is one and inserted otherwise; every other entry stays. -/
def map_assign (m : List (Bytes × Bytes)) (k v : Bytes) : List (Bytes × Bytes) :=
  match m with
  | [] => [(k, v)]
  | e :: rest => if e.1 == k then (k, v) :: rest else e :: map_assign rest k v

/-- The loop `for (const auto& kv : query_parameter_pairs_) query_parameter_map_[kv.key] =
kv.value;` (uri.cc:357-359, 369-371 and 384-386), started on the map `m`. -/
def assign_all (m : List (Bytes × Bytes)) (pairs : List URI.QueryParam) :
    List (Bytes × Bytes) :=
  pairs.foldl (fun acc kv => map_assign acc kv.key kv.value) m

/-- The constructor `URI::URI(scheme, user_info, host_port, path, query_parameter_pairs,
fragment)` (uri.cc:347-360): the map starts empty. -/
def URI.URI (scheme user_info host_port path : Bytes)
    (query_parameter_pairs : List URI.QueryParam) (fragment : Bytes) : grpc_core.URI :=
  { scheme_ := AsciiStrToLower scheme
    user_info_ := user_info
    host_port_ := host_port
    path_ := path
    query_parameter_map_ := assign_all [] query_parameter_pairs
    query_parameter_pairs_ := query_parameter_pairs
    fragment_ := fragment }

/-- The copy constructor `URI::URI(const URI& other)` (uri.cc:362-372): the map of the new
object starts empty. -/
def URI.URI_copy (other : grpc_core.URI) : grpc_core.URI :=
  { scheme_ := other.scheme_
    user_info_ := other.user_info_
    host_port_ := other.host_port_
    path_ := other.path_
    query_parameter_map_ := assign_all [] other.query_parameter_pairs_
    query_parameter_pairs_ := other.query_parameter_pairs_
    fragment_ := other.fragment_ }

/-- The copy assignment `URI::operator=(const URI& other)` (uri.cc:374-388) on the object
`self`, for `other` a different object: the six other members are overwritten, the map
is not cleared, and the loop assigns the new pairs into the map that `self` already
has. The result is given where uri.cc determines it whatever the declaration of the map
in uri.h is: when the map of `self` is empty, the loop fills an empty map as the
constructor does; when `other` has no pairs, the loop does not run and the map keeps
the entries it had (if the map holds views, these entries now refer to pairs that are
gone, and only their number means something). In the remaining case the loop compares
the new keys with entries written from the pairs that the assignment has just
overwritten, the outcome depends on whether the map owns its keys, and the result is
`none`. -/
def URI.operator_assign (self other : grpc_core.URI) : Option grpc_core.URI :=
  if self.query_parameter_map_.isEmpty || other.query_parameter_pairs_.isEmpty then
    some
      { scheme_ := other.scheme_
        user_info_ := other.user_info_
        host_port_ := other.host_port_
        path_ := other.path_
        query_parameter_map_ :=
          assign_all self.query_parameter_map_ other.query_parameter_pairs_
        query_parameter_pairs_ := other.query_parameter_pairs_
        fragment_ := other.fragment_ }
  else none

/-- The errors of `URI::Parse` (uri.cc:237-328), by the part named and the explanation given
to MakeInvalidURIStatus. -/
inductive ParseError
  /-- Part "scheme", "Scheme not found." -/
  | scheme_not_found
  /-- Part "scheme", "Scheme contains invalid characters." -/
  | scheme_invalid_characters
  /-- Part "scheme", "Scheme must begin with an alpha character [A-Za-z]." -/
  | scheme_must_begin_with_alpha
  /-- Part "query", "Invalid query string." -/
  | invalid_query_string
  /-- Part "query string", "Query string contains invalid characters." -/
  | query_invalid_characters
  /-- Part "fragment", "Fragment contains invalid characters." -/
  | fragment_invalid_characters
  deriving DecidableEq, Repr

/-- The step of `URI::Parse` that follows a search (uri.cc:275-279, 286-290, 312-316): the
text left is emptied when the search found nothing, and loses its first `offset` bytes
otherwise. -/
def advance (remaining : Bytes) (offset : Option Nat) : Bytes :=
  match offset with
  | none => []
  | some k => remaining.drop k

/-- The section "parse authority" of `URI::Parse` (uri.cc:257-280): the user info, the host
and port and the text left. -/
def URI.ParseAuthority (remaining : Bytes) : Bytes × Bytes × Bytes :=
  match ConsumePrefix remaining (lit "//") with
  | some remaining =>
    let offset := find_first_of remaining (lit "/?#")
    let encoded_authority := substr remaining 0 offset
    let encoded :=
      match rfind encoded_authority (ch '@') with
      | none => (([] : Bytes), encoded_authority)
      | some at_pos =>
        (substr encoded_authority 0 (some at_pos), substr encoded_authority (at_pos + 1) none)
    (URI.PercentDecode encoded.1, URI.PercentDecode encoded.2, advance remaining offset)
  | none => ([], [], remaining)

/-- The section "parse path" of `URI::Parse` (uri.cc:281-291): the path and the text left. -/
def URI.ParsePath (remaining : Bytes) : Bytes × Bytes :=
  if !remaining.isEmpty then
    let offset := find_first_of remaining (lit "?#")
    (URI.PercentDecode (substr remaining 0 offset), advance remaining offset)
  else ([], remaining)

/-- The loop over the query parameters of `URI::Parse` (uri.cc:304-310): a parameter with
an empty key is skipped. -/
def URI.ParseQueryParams (params : List Bytes) : List URI.QueryParam :=
  params.filterMap (fun query_param =>
    let possible_kv := StrSplitMaxSplits1 query_param (ch '=')
    if possible_kv.1.isEmpty then none
    else some { key := URI.PercentDecode possible_kv.1, value := URI.PercentDecode possible_kv.2 })

/-- The section "parse query" of `URI::Parse` (uri.cc:292-317): the pairs and the text
left. -/
def URI.ParseQuery (remaining : Bytes) :
    Except ParseError (List URI.QueryParam × Bytes) :=
  match ConsumePrefix remaining (lit "?") with
  | some remaining =>
    let offset := find remaining (ch '#')
    let tmp_query := substr remaining 0 offset
    if tmp_query.isEmpty then .error .invalid_query_string
    else if !IsQueryOrFragmentString tmp_query then .error .query_invalid_characters
    else .ok (URI.ParseQueryParams (StrSplit tmp_query (ch '&')), advance remaining offset)
  | none => .ok ([], remaining)

/-- The last section of `URI::Parse` (uri.cc:318-324): the fragment. -/
def URI.ParseFragment (remaining : Bytes) : Except ParseError Bytes :=
  match ConsumePrefix remaining (lit "#") with
  | some remaining =>
    if !IsQueryOrFragmentString remaining then .error .fragment_invalid_characters
    else .ok (URI.PercentDecode remaining)
  | none => .ok []

/-- The function `URI::Parse` (uri.cc:237-328). -/
def URI.Parse (uri_text : Bytes) : Except ParseError grpc_core.URI :=
  match find uri_text (ch ':') with
  | none => .error .scheme_not_found
  | some offset =>
    if offset == 0 then .error .scheme_not_found
    else
      let scheme := substr uri_text 0 (some offset)
      if (find_first_not_of scheme kSchemeAlphabet).isSome then
        .error .scheme_invalid_characters
      else if !ascii_isalpha (scheme.headD 0) then .error .scheme_must_begin_with_alpha
      else
        let authority := URI.ParseAuthority (uri_text.drop (offset + 1))
        let path := URI.ParsePath authority.2.2
        match URI.ParseQuery path.2 with
        | .error e => .error e
        | .ok query =>
          match URI.ParseFragment query.2 with
          | .error e => .error e
          | .ok fragment =>
            .ok (URI.URI scheme authority.1 authority.2.1 path.1 query.1 fragment)

/-- The formatter QueryParameterFormatter (uri.cc:392-399) of one pair. -/
def QueryParameterFormatter (query_param : URI.QueryParam) : Bytes :=
  PercentEncode query_param.key IsQueryKeyOrValueChar ++ lit "=" ++
    PercentEncode query_param.value IsQueryKeyOrValueChar

/-- The method `URI::EncodedPathAndQueryParams` (uri.cc:424-435). -/
def URI.EncodedPathAndQueryParams (u : grpc_core.URI) : Bytes :=
  (if !u.path_.isEmpty then PercentEncode u.path_ IsPathChar else []) ++
    (if !u.query_parameter_pairs_.isEmpty then
      lit "?" ++ StrJoin (u.query_parameter_pairs_.map QueryParameterFormatter) (lit "&")
    else [])

/-- The method `URI::ToString` (uri.cc:403-422). -/
def URI.ToString (u : grpc_core.URI) : Bytes :=
  PercentEncode u.scheme_ IsSchemeChar ++ lit ":" ++
    (if !u.user_info_.isEmpty || !u.host_port_.isEmpty || StartsWith u.path_ (lit "//") then
      lit "//" ++
        (if !u.user_info_.isEmpty then PercentEncode u.user_info_ IsUserInfoChar ++ lit "@"
         else []) ++
        PercentEncode u.host_port_ IsHostPortChar
    else []) ++
    u.EncodedPathAndQueryParams ++
    (if !u.fragment_.isEmpty then lit "#" ++ PercentEncode u.fragment_ IsQueryOrFragmentChar
     else [])

/-- The upper-case hexadecimal digit of a value below 16. -/
def upper_hex_digit (n : Nat) : Byte := (lit "0123456789ABCDEF").getD n 0

/-- The value a hexadecimal digit denotes, whatever its case. -/
def hex_value (c : Byte) : Nat := (lit "0123456789abcdef").indexOf (ascii_tolower c)

/-- The bytes that do not occur in `chars`. -/
def not_in (chars : Bytes) (x : Byte) : Bool := !chars.contains x

/-- The text of a query with the question mark that starts it, empty when there is none. -/
def query_part (qo : Option Bytes) : Bytes :=
  match qo with
  | none => []
  | some q => ch '?' :: q

/-- The text of a fragment with the hash sign that starts it, empty when there is none. -/
def fragment_part (fo : Option Bytes) : Bytes :=
  match fo with
  | none => []
  | some f => ch '#' :: f

/-- Specification: the text before the first occurrence of the byte `c`, the whole text when
`c` does not occur. -/
def text_before_first (c : Byte) (s : Bytes) : Bytes := s.takeWhile (fun x => x != c)

/-- Specification: the text after the first occurrence of the byte `c`, if `c` occurs. -/
def text_after_first (c : Byte) (s : Bytes) : Option Bytes :=
  if s.contains c then some ((s.dropWhile (fun x => x != c)).drop 1) else none

/-- Specification: the scheme of a text is what stands before its first colon. -/
def spec_scheme (t : Bytes) : Bytes := text_before_first (ch ':') t

/-- Specification: the fragment of a text is what follows the first hash sign after the
first colon. -/
def spec_fragment (t : Bytes) : Option Bytes :=
  (text_after_first (ch ':') t).bind (text_after_first (ch '#'))

/-- Specification: a query is begun by the first question mark after the first colon,
provided it stands before every hash sign, and it ends before the next hash sign or at
the end of the text. -/
def spec_query (t : Bytes) : Option Bytes :=
  (text_after_first (ch ':') t).bind
    (fun rest => text_after_first (ch '?') (text_before_first (ch '#') rest))

/-- Specification: a byte of the set `[A-Za-z0-9+-.]`. -/
def is_scheme_byte (c : Byte) : Bool :=
  (65 ≤ c.val && c.val ≤ 90) || (97 ≤ c.val && c.val ≤ 122) || (48 ≤ c.val && c.val ≤ 57) ||
    c == ch '+' || c == ch '-' || c == ch '.'

/-- Specification: a byte that is neither a query or fragment character nor a percent
sign. -/
def is_invalid_query_byte (c : Byte) : Bool := !IsQueryOrFragmentChar c && c != ch '%'

/-- Specification: a query or fragment, if there is one, contains a byte that is neither a
query or fragment character nor a percent sign. -/
def has_invalid_query_byte (part : Option Bytes) : Bool :=
  match part with
  | some s => s.any is_invalid_query_byte
  | none => false

/-- Specification: the scheme does not begin with a letter. -/
def begins_with_non_letter (scheme : Bytes) : Bool :=
  match scheme with
  | [] => false
  | c :: _ => !ascii_isalpha c

/-- Specification: the conditions under which `URI::Parse` is said to return an error. -/
def spec_parse_fails (t : Bytes) : Bool :=
  !t.contains (ch ':') || t.head? == some (ch ':') ||
    (spec_scheme t).any (fun c => !is_scheme_byte c) ||
    begins_with_non_letter (spec_scheme t) ||
    spec_query t == some [] ||
    has_invalid_query_byte (spec_query t) ||
    has_invalid_query_byte (spec_fragment t)

/-- The text `URI::ToString` writes for the user info and the host and port (uri.cc:410-414). -/
def encoded_authority (user_info host_port : Bytes) : Bytes :=
  (if !user_info.isEmpty then PercentEncode user_info IsUserInfoChar ++ lit "@" else []) ++
    PercentEncode host_port IsHostPortChar

/-- The text `URI::EncodedPathAndQueryParams` joins for the query parameters (uri.cc:429-433),
without the question mark; `none` when there are no pairs. -/
def encoded_query (pairs : List URI.QueryParam) : Option Bytes :=
  if pairs.isEmpty then none else some (StrJoin (pairs.map QueryParameterFormatter) (lit "&"))

/-- The text `URI::ToString` writes for the fragment (uri.cc:417-420), without the hash sign;
`none` when the fragment is empty. -/
def encoded_fragment (fragment : Bytes) : Option Bytes :=
  if fragment.isEmpty then none else some (PercentEncode fragment IsQueryOrFragmentChar)

end grpc_core

/-! ## The RST_STREAM validator of the bad-client harness (test/core/bad_client/bad_client.cc) -/

/-- Modelled from the spec: a `grpc_slice_buffer` (declared in slice_buffer.h, which is not
among the sources) is a sequence of slices, each a run of bytes. -/
structure grpc_slice_buffer where
  slices : List (List (Fin 256))
  deriving DecidableEq, Repr

/-- The member `length` of a slice buffer: the number of bytes in all its slices. -/
def grpc_slice_buffer.length (sb : grpc_slice_buffer) : Nat :=
  (sb.slices.map List.length).sum

/-- The member `count` of a slice buffer: the number of its slices. -/
def grpc_slice_buffer.count (sb : grpc_slice_buffer) : Nat := sb.slices.length

/-- Modelled from the spec: the loop of the library function grpc_slice_buffer_trim_end, on
the slices listed from the last one backwards: a slice longer than what is still to be
moved is split and its tail is moved, a shorter one is moved whole and the loop goes on.
The result is the slices left (last one first) and the slices moved, in the order in
which they were moved. -/
def grpc_slice_buffer_trim_end_loop :
    List (List (Fin 256)) → Nat → List (List (Fin 256)) →
      List (List (Fin 256)) × List (List (Fin 256))
  | [], _, garbage => ([], garbage)
  | slice :: before, n, garbage =>
    if slice.length > n then
      (slice.take (slice.length - n) :: before, garbage ++ [slice.drop (slice.length - n)])
    else if slice.length == n then (before, garbage ++ [slice])
    else grpc_slice_buffer_trim_end_loop before (n - slice.length) (garbage ++ [slice])

/-- Modelled from the spec: the library function grpc_slice_buffer_trim_end(sb, n, garbage)
moves the last `n` bytes of `sb` to `garbage`; the result is `sb` and `garbage`
afterwards. -/
def grpc_slice_buffer_trim_end (sb : grpc_slice_buffer) (n : Nat) (garbage : grpc_slice_buffer) :
    grpc_slice_buffer × grpc_slice_buffer :=
  if n == 0 then (sb, garbage)
  else
    ({ slices := (grpc_slice_buffer_trim_end_loop sb.slices.reverse n garbage.slices).1.reverse },
      { slices := (grpc_slice_buffer_trim_end_loop sb.slices.reverse n garbage.slices).2 })

/-- The function rst_stream_client_validator (bad_client.cc:293-323) on the buffer `incoming`:
the value returned, or `none` when `CHECK_EQ(last_frame_buffer.count, 1u)` fails and the
process is aborted. `p i` is the byte that `p` points to after `i` increments. -/
def rst_stream_client_validator (incoming : grpc_slice_buffer) : Option Bool :=
  let kExpectedFrameLength : Nat := 13
  if incoming.length < kExpectedFrameLength then some false
  else
    let last_frame_buffer :=
      (grpc_slice_buffer_trim_end incoming kExpectedFrameLength { slices := [] }).2
    if last_frame_buffer.count != 1 then none
    else
      let last_frame := last_frame_buffer.slices.headD []
      let p : Nat → Fin 256 := fun i => last_frame.getD i 0
      let success :=
        p 0 != 0 || p 1 != 0 || p 2 != 4 ||
        p 3 != 3 ||
        p 4 != 0 ||
        p 5 != 0 || p 6 != 0 || p 7 != 0 || p 8 != 1 ||
        p 9 == 0 || p 10 == 0 || p 11 == 0 || p 12 == 0 || p 12 == 11
      some success

/-- The frame the validator is meant to find, as the comments of bad_client.cc:304-313
describe it: length 4, frame type 3 (RST_STREAM), no flags, stream 1, then the four bytes
of the error code. -/
def is_rst_stream_frame (frame : List (Fin 256)) : Bool :=
  frame.length == 13 && frame.take 9 == [0, 0, 4, 3, 0, 0, 0, 0, 1]

namespace grpc
namespace testing

/-! ## Sizing of clients and servers in RunScenario (test/cpp/qps/driver.cc) -/

/-- The number of values of `size_t`. -/
def kSizeModulus : Nat := 2 ^ 64

/-- Modelled from the spec: the members of RunScenarioOptions (declared in driver.h, which is
not among the sources) that driver.cc:410-444 reads. `num_clients` is a signed or unsigned
count, `num_servers` a `size_t`. -/
structure RunScenarioOptions where
  num_clients : Int
  num_servers : Nat
  deriving DecidableEq, Repr

/-- What the sizing code and the server start-up loop of RunScenario come to. -/
inductive SizingOutcome
  /-- A `CHECK` failed and the process was aborted. -/
  | check_failed
  /-- The loop read `workers[i]` with `i` not below the number of workers. -/
  | read_out_of_range (i : Nat) (workers : List String) (num_clients_to_use : Nat)
  /-- Every read of the loop was in range. -/
  | servers_started (workers : List String) (num_clients_to_use : Nat)
  deriving DecidableEq, Repr

/-- The member `resize(n)` of `std::deque<std::string>`. -/
def resize (workers : List String) (n : Nat) : List String :=
  workers.take n ++ List.replicate (n - workers.length) ""

/-- The sizing of RunScenario (driver.cc:410-425) followed by the reads `workers[i]` of
the server start-up loop (driver.cc:432-444), for `num_servers` below `2 ^ 64`. Sums
and differences of `size_t` are taken modulo `2 ^ 64`. -/
def RunScenarioSizing (workers : List String) (options : RunScenarioOptions) : SizingOutcome :=
  if workers.isEmpty then .check_failed
  else
    let num_clients_to_use : Nat :=
      if options.num_clients ≤ 0 then
        (workers.length + (kSizeModulus - options.num_servers % kSizeModulus)) % kSizeModulus
      else (options.num_clients % kSizeModulus).toNat
    if !(workers.length ≥ (num_clients_to_use + options.num_servers) % kSizeModulus) then
      .check_failed
    else
      let workers := resize workers ((num_clients_to_use + options.num_servers) % kSizeModulus)
      if workers.length < options.num_servers then
        .read_out_of_range workers.length workers num_clients_to_use
      else .servers_started workers num_clients_to_use

end testing
end grpc

namespace grpc_core
namespace promise_detail

/-! ## Theorems -/

/-- C1: under the Once token with no argument, a nullary callable `f` that returns a plain
value is evaluated by Make: Make succeeds, records exactly one invocation of `f` (and
leaves the outside state as that invocation left it), and one poll of the returned
promise yields Ready(v) for the value `v` that invocation returned, without invoking
`f` and without touching the world. -/
theorem once_plain_value_is_evaluated_by_make {S W A T P : Type}
    (withArg : Option ((sh : ResultShape) × (S → A → W → sh.Val T P × S × W)))
    (resultPoll : P → W → Poll T × P × W)
    (f : S → W → T × S × W) (f_ : S) (w : World W A) :
    ∃ p w1,
      OncePromiseFactory.MakeVoid
          { withArg := withArg, noArg := some ⟨ResultShape.plain, f⟩, resultPoll := resultPoll }
          f_ w = some (p, w1)
      ∧ w1.calls = w.calls ++ [CallEvent.noArg]
      ∧ w1.ext = (f f_ w.ext).2.2
      ∧ ∀ w2 : World W A, ∃ p2,
          p.poll w2 = some (Poll.ready (Payload.value (f f_ w.ext).1), p2, w2) := by
  refine ⟨.immediate (some (f f_ w.ext).1), _, rfl, rfl, rfl, ?_⟩
  intro w2
  exact ⟨_, rfl⟩

/-- C2 (counterexample): under the Once token, for the callable `twoArity`, for which `f(5)`
is well-formed and yields the plain value 6, `Make(5)` does not return a Curried
promise: the first poll of the promise it returns yields Ready(0), the invocation
recorded is the one without an argument, and no invocation with the argument 5 is ever
made. -/
theorem once_make_drops_argument_of_two_arity_callable :
    ((OncePromiseFactory.Make twoArity () 5 (World.initial ())).bind
        (fun r => (r.1.poll r.2).map (fun q => (q.1, q.2.2.calls))))
      = some (Poll.ready (Payload.value 0), [CallEvent.noArg])
    ∧ twoArity.shape.withArg = some ResultShape.plain
    ∧ resolve (onceSite true) twoArity.shape = Resolution.selected Overload.onceDropArg
    ∧ (WrapInPoll ResultShape.plain (5 + 1) : Poll (Payload Nat Unit))
        = Poll.ready (Payload.value 6) := by
  refine ⟨by decide, rfl, by decide, rfl⟩

/-- C2 (amended): for a callable `f` for which `f(a)` is well-formed and yields a plain value
or a Poll, Make(a) does not invoke `f` and returns a Curried promise holding `f` and
`a`, under the Once token when `f()` is ill-formed and under the Repeated token when
`f()` does not yield a promise; the first poll of that promise invokes `f` once, with
`a`, and returns the result of `f(a)` as a Poll. -/
theorem make_captures_argument_in_curried {S W A T P : Type}
    (sh : ResultShape) (hsh : sh = ResultShape.plain ∨ sh = ResultShape.poll)
    (f : S → A → W → sh.Val T P × S × W)
    (noArg : Option ((sh0 : ResultShape) × (S → W → sh0.Val T P × S × W)))
    (resultPoll : P → W → Poll T × P × W) (f_ : S) (a : A) (w : World W A) :
    (noArg = none →
      OncePromiseFactory.Make
          { withArg := some ⟨sh, f⟩, noArg := noArg, resultPoll := resultPoll } f_ a w
        = some (MadePromise.curried sh { call := f, f_ := f_, arg_ := some a }, w))
    ∧ (noArg.map (fun c => c.1) ≠ some ResultShape.callable →
      RepeatedPromiseFactory.Make
          { withArg := some ⟨sh, f⟩, noArg := noArg, resultPoll := resultPoll } f_ a w
        = some (MadePromise.curried sh { call := f, f_ := f_, arg_ := some a }, f_, w))
    ∧ ∀ w2 : World W A,
        (MadePromise.curried sh { call := f, f_ := f_, arg_ := some a }
            : MadePromise S W A T P).poll w2
          = some (WrapInPoll sh (f f_ a w2.ext).1,
              MadePromise.curried sh { call := f, f_ := (f f_ a w2.ext).2.1, arg_ := none },
              { ext := (f f_ a w2.ext).2.2, calls := w2.calls ++ [CallEvent.withArg a] }) := by
  refine ⟨?_, ?_, fun _ => rfl⟩
  · intro h0
    subst h0
    rcases hsh with h | h <;> subst h <;> rfl
  · intro h0
    rcases noArg with _ | ⟨sh0, g⟩
    · rcases hsh with h | h <;> subst h <;> rfl
    · cases sh0
      · exact absurd rfl h0
      all_goals (rcases hsh with h | h <;> subst h <;> rfl)

/-- C2 (witness): the callable `addOne`, made into a Repeated factory, with the argument 5. -/
theorem make_captures_argument_in_curried_witness :
    (ResultShape.plain = ResultShape.plain ∨ ResultShape.plain = ResultShape.poll)
    ∧ ((RepeatedPromiseFactory.Make addOne () 5 (World.initial 0)).bind
        (fun r => (r.1.poll r.2.2).map (fun q => (q.1, q.2.2.calls, q.2.2.ext))))
      = some (Poll.ready (Payload.value 6), [CallEvent.withArg 5], 1) := by
  have h := make_captures_argument_in_curried (S := Unit) (W := Nat) (A := Nat) (T := Nat)
    (P := Unit) ResultShape.plain (Or.inl rfl) (fun s a e => (a + 1, s, e + 1)) none
    (fun p e => (Poll.pending, p, e)) () 5 (World.initial 0)
  refine ⟨Or.inl rfl, ?_⟩
  have h2 := h.2.1 (by simp)
  have h3 := h.2.2 (World.initial 0)
  unfold addOne
  rw [h2]
  simp only [Option.bind]
  rw [h3]
  rfl

/-- C3: for a callable that takes one argument (and cannot be called without one) and
returns a promise, Make(a) under either token invokes `f` once, with `a`, and returns
the promise `f(a)` itself: polling the result is polling `f(a)`, with nothing added. -/
theorem make_of_promise_returning_callable_is_identity {S W A T P : Type}
    (resultPoll : P → W → Poll T × P × W)
    (f : S → A → W → P × S × W) (f_ : S) (a : A) (w : World W A) :
    OncePromiseFactory.Make
        { withArg := some ⟨ResultShape.callable, f⟩, noArg := none, resultPoll := resultPoll }
        f_ a w
      = some (MadePromise.direct resultPoll (f f_ a w.ext).1,
          { ext := (f f_ a w.ext).2.2, calls := w.calls ++ [CallEvent.withArg a] })
    ∧ RepeatedPromiseFactory.Make
        { withArg := some ⟨ResultShape.callable, f⟩, noArg := none, resultPoll := resultPoll }
        f_ a w
      = some (MadePromise.direct resultPoll (f f_ a w.ext).1, (f f_ a w.ext).2.1,
          { ext := (f f_ a w.ext).2.2, calls := w.calls ++ [CallEvent.withArg a] })
    ∧ ∀ (p : P) (w2 : World W A),
        (MadePromise.direct resultPoll p : MadePromise S W A T P).poll w2
          = some (Poll.map Payload.value (resultPoll p w2.ext).1,
              MadePromise.direct resultPoll (resultPoll p w2.ext).2.1,
              { ext := (resultPoll p w2.ext).2.2, calls := w2.calls }) :=
  ⟨rfl, rfl, fun _ _ => rfl⟩

/-- C4: for a callable that takes no arguments and returns a promise, and a factory with
an argument type, Make(a) under either token drops the argument: it invokes `f()`
exactly once and returns the promise `f()` produced, the same for every argument. -/
theorem make_drops_argument_for_nullary_promise_callable {S W A T P : Type}
    (resultPoll : P → W → Poll T × P × W)
    (f : S → W → P × S × W) (f_ : S) (a1 a2 : A) (w : World W A) :
    OncePromiseFactory.Make
        { withArg := (none : Option ((sh : ResultShape) × (S → A → W → sh.Val T P × S × W))),
          noArg := some ⟨ResultShape.callable, f⟩, resultPoll := resultPoll } f_ a1 w
      = some (MadePromise.direct resultPoll (f f_ w.ext).1,
          { ext := (f f_ w.ext).2.2, calls := w.calls ++ [CallEvent.noArg] })
    ∧ OncePromiseFactory.Make
        { withArg := (none : Option ((sh : ResultShape) × (S → A → W → sh.Val T P × S × W))),
          noArg := some ⟨ResultShape.callable, f⟩, resultPoll := resultPoll } f_ a2 w
      = OncePromiseFactory.Make
        { withArg := (none : Option ((sh : ResultShape) × (S → A → W → sh.Val T P × S × W))),
          noArg := some ⟨ResultShape.callable, f⟩, resultPoll := resultPoll } f_ a1 w
    ∧ RepeatedPromiseFactory.Make
        { withArg := (none : Option ((sh : ResultShape) × (S → A → W → sh.Val T P × S × W))),
          noArg := some ⟨ResultShape.callable, f⟩, resultPoll := resultPoll } f_ a1 w
      = some (MadePromise.direct resultPoll (f f_ w.ext).1, (f f_ w.ext).2.1,
          { ext := (f f_ w.ext).2.2, calls := w.calls ++ [CallEvent.noArg] })
    ∧ RepeatedPromiseFactory.Make
        { withArg := (none : Option ((sh : ResultShape) × (S → A → W → sh.Val T P × S × W))),
          noArg := some ⟨ResultShape.callable, f⟩, resultPoll := resultPoll } f_ a2 w
      = RepeatedPromiseFactory.Make
        { withArg := (none : Option ((sh : ResultShape) × (S → A → W → sh.Val T P × S × W))),
          noArg := some ⟨ResultShape.callable, f⟩, resultPoll := resultPoll } f_ a1 w :=
  ⟨rfl, rfl, rfl, rfl⟩

/-- C5: under the Once token with no argument, a nullary callable `f` that returns a Poll
is wrapped as the promise: Make does not invoke `f` (the world is unchanged), and every
poll of the result, in whatever state the wrapped callable is by then, invokes `f`
exactly once and returns what `f` returned, Pending as Pending and Ready(v) as Ready(v). -/
theorem once_poll_callable_is_the_promise {S W A T P : Type}
    (withArg : Option ((sh : ResultShape) × (S → A → W → sh.Val T P × S × W)))
    (resultPoll : P → W → Poll T × P × W)
    (f : S → W → Poll T × S × W) (f_ : S) (w : World W A) :
    OncePromiseFactory.MakeVoid
        { withArg := withArg, noArg := some ⟨ResultShape.poll, f⟩, resultPoll := resultPoll }
        f_ w = some (MadePromise.wrapped ResultShape.poll f f_, w)
    ∧ (∀ (s : S) (w2 : World W A),
        (MadePromise.wrapped ResultShape.poll f s : MadePromise S W A T P).poll w2
          = some (Poll.map Payload.value (f s w2.ext).1,
              MadePromise.wrapped ResultShape.poll f (f s w2.ext).2.1,
              { ext := (f s w2.ext).2.2, calls := w2.calls ++ [CallEvent.noArg] }))
    ∧ Poll.map (Payload.value : T → Payload T P) Poll.pending = Poll.pending
    ∧ ∀ v : T, Poll.map (Payload.value : T → Payload T P) (Poll.ready v)
        = Poll.ready (Payload.value v) :=
  ⟨rfl, fun _ _ => rfl, rfl, fun _ => rfl⟩

/-- C6: a nullary callable that returns a plain value is adapted under the Once token only:
with no argument, no overload is viable for the Repeatable token, so
kIsRepeatedPromiseFactory is false and the Repeated factory does not build, while the
Once factory selects the eager overload. -/
theorem eager_value_rule_is_once_only (r : Option ResultShape) :
    kIsRepeatedPromiseFactory false { withArg := r, noArg := some ResultShape.plain } = false
    ∧ viableSet (repeatedSite false) { withArg := r, noArg := some ResultShape.plain } = []
    ∧ viableSet (queryCallSite false) { withArg := r, noArg := some ResultShape.plain } = []
    ∧ resolve (repeatedSite false) { withArg := r, noArg := some ResultShape.plain }
        = Resolution.noViable
    ∧ resolve (onceSite false) { withArg := r, noArg := some ResultShape.plain }
        = Resolution.selected Overload.onceValue :=
  ⟨rfl, rfl, rfl, rfl, rfl⟩

/-- C7: under the Once token with no argument, a nullary callable `f` that yields nothing
is invoked by Make exactly once, and the returned promise is Ready(Empty) on every
poll, without invoking `f` or touching the world. -/
theorem once_void_callable_runs_at_make {S W A T P : Type}
    (withArg : Option ((sh : ResultShape) × (S → A → W → sh.Val T P × S × W)))
    (resultPoll : P → W → Poll T × P × W)
    (f : S → W → Unit × S × W) (f_ : S) (w : World W A) :
    OncePromiseFactory.MakeVoid
        { withArg := withArg, noArg := some ⟨ResultShape.void, f⟩, resultPoll := resultPoll }
        f_ w
      = some (MadePromise.emptyReady,
          { ext := (f f_ w.ext).2.2, calls := w.calls ++ [CallEvent.noArg] })
    ∧ ∀ w2 : World W A,
        (MadePromise.emptyReady : MadePromise S W A T P).poll w2
          = some (Poll.ready Payload.empty, MadePromise.emptyReady, w2) :=
  ⟨rfl, fun _ => rfl⟩

/-- C12: for every callable `f` and argument `arg`, `Curried(f, arg)` invoked once returns
exactly what `f(arg)` returns, and that invocation is the only one made: one call of
`f` is recorded, with the captured argument, and the argument is moved out. -/
theorem curried_invokes_callable_once_with_captured_argument {S W A R : Type}
    (f : S → A → W → R × S × W) (f_ : S) (arg : A) (w : World W A) :
    ({ call := f, f_ := f_, arg_ := some arg } : Curried S W A R).invoke w
      = some ((f f_ arg w.ext).1,
          { call := f, f_ := (f f_ arg w.ext).2.1, arg_ := none },
          { ext := (f f_ arg w.ext).2.2, calls := w.calls ++ [CallEvent.withArg arg] }) :=
  rfl

/-- C13 (counterexample): for an argument type and a callable for which `f(a)` yields a plain
value and `f()` yields a promise, two Repeatable-token overloads apply (the capturing
one and the one that drops the argument), and kIsRepeatedPromiseFactory is false
although `f(a)` is well-formed and `f()` yields a promise: the call in its `decltype`
is ambiguous. -/
theorem repeatability_query_is_false_for_ambiguous_shape :
    viableSet (queryCallSite true)
        { withArg := some ResultShape.plain, noArg := some ResultShape.callable }
      = [Overload.curry, Overload.dropArgPromise]
    ∧ resolve (queryCallSite true)
        { withArg := some ResultShape.plain, noArg := some ResultShape.callable }
      = Resolution.ambiguous
    ∧ kIsRepeatedPromiseFactory true
        { withArg := some ResultShape.plain, noArg := some ResultShape.callable } = false := by
  decide

/-- C13 (amended): kIsRepeatedPromiseFactory answers yes exactly when exactly one
Repeatable-token rule applies. For an argument type that is when either `f(a)` is
well-formed (yielding a promise, a Poll, a plain value or nothing) and `f()` does not
yield a promise, or `f(a)` is ill-formed and `f()` yields a promise; without argument
it is when `f()` yields a promise. It answers no for every other shape: when no
Repeatable-token overload is viable, which includes every callable that only a
Once-only overload accepts, and when `f(a)` is well-formed and `f()` yields a promise.
Whenever it answers yes, the Repeated factory builds. -/
theorem repeatability_query_characterisation (withArg noArg : Option ResultShape) :
    (kIsRepeatedPromiseFactory true { withArg := withArg, noArg := noArg } = true ↔
      (withArg ≠ none ∧ noArg ≠ some ResultShape.callable)
        ∨ (withArg = none ∧ noArg = some ResultShape.callable))
    ∧ (kIsRepeatedPromiseFactory false { withArg := withArg, noArg := noArg } = true ↔
      noArg = some ResultShape.callable)
    ∧ (∀ hasArg : Bool,
      kIsRepeatedPromiseFactory hasArg { withArg := withArg, noArg := noArg } = true ↔
        (applicableRules (queryCallSite hasArg)
          { withArg := withArg, noArg := noArg }).length = 1)
    ∧ (∀ hasArg : Bool,
      viableSet (queryCallSite hasArg) { withArg := withArg, noArg := noArg } = [] →
        kIsRepeatedPromiseFactory hasArg { withArg := withArg, noArg := noArg } = false)
    ∧ (∀ hasArg : Bool,
      kIsRepeatedPromiseFactory hasArg { withArg := withArg, noArg := noArg } = true →
        (resolve (repeatedSite hasArg) { withArg := withArg, noArg := noArg }).selectedRule
          ≠ none) := by
  rcases withArg with _ | (_ | _ | _ | _) <;>
    rcases noArg with _ | (_ | _ | _ | _) <;> decide

/-- C14 (counterexample): the nullary callable `readySeven`, which returns a Poll, is not
accepted under the Repeated token: no overload is viable for the call without
argument, `RepeatedPromiseFactory<void, F>::Make` does not build, and
kIsRepeatedPromiseFactory is false for it. -/
theorem repeated_factory_rejects_poll_callable :
    readySeven.shape = { withArg := none, noArg := some ResultShape.poll }
    ∧ viableSet (repeatedSite false) readySeven.shape = []
    ∧ resolve (repeatedSite false) readySeven.shape = Resolution.noViable
    ∧ (RepeatedPromiseFactory.MakeVoid readySeven () (World.initial 0)).isSome = false
    ∧ kIsRepeatedPromiseFactory false readySeven.shape = false := by
  decide

/-- C14 (amended): a nullary callable that returns a Poll is promoted to a factory under
the Once token only. With no argument, under the Repeated token no overload is viable
for it, whatever its one-argument call does: the Repeated factory is rejected at build
time and kIsRepeatedPromiseFactory is false, while the Once factory selects the
overload that wraps the callable as the promise. -/
theorem poll_callable_promotion_is_once_only (r : Option ResultShape) :
    viableSet (repeatedSite false) { withArg := r, noArg := some ResultShape.poll } = []
    ∧ resolve (repeatedSite false) { withArg := r, noArg := some ResultShape.poll }
        = Resolution.noViable
    ∧ kIsRepeatedPromiseFactory false { withArg := r, noArg := some ResultShape.poll } = false
    ∧ resolve (onceSite false) { withArg := r, noArg := some ResultShape.poll }
        = Resolution.selected Overload.oncePoll :=
  ⟨rfl, rfl, rfl, rfl⟩

/-- C15 (counterexample): the nullary callable `countOnly`, which yields nothing, is not
accepted under the Repeated token: no overload is viable for the call without
argument, `RepeatedPromiseFactory<void, F>::Make` does not build and invokes nothing,
and kIsRepeatedPromiseFactory is false for it. -/
theorem repeated_factory_rejects_void_callable :
    countOnly.shape = { withArg := none, noArg := some ResultShape.void }
    ∧ viableSet (repeatedSite false) countOnly.shape = []
    ∧ resolve (repeatedSite false) countOnly.shape = Resolution.noViable
    ∧ (RepeatedPromiseFactory.MakeVoid countOnly () (World.initial 0)).isSome = false
    ∧ kIsRepeatedPromiseFactory false countOnly.shape = false := by
  decide

/-- C15 (amended): the rule for a nullary callable that yields nothing is selected for the
Once token only. Under the Repeated token with no argument no overload is viable for
it and the factory is rejected at build time. Under the Once token the factory is
accepted, Make invokes `f` once, at Make time, and returns a promise that is
Ready(Empty) on every poll. -/
theorem void_callable_rule_is_once_only {S W A T P : Type}
    (withArg : Option ((sh : ResultShape) × (S → A → W → sh.Val T P × S × W)))
    (resultPoll : P → W → Poll T × P × W)
    (f : S → W → Unit × S × W) (f_ : S) (w : World W A) :
    viableSet (repeatedSite false)
        (Callable.shape
          { withArg := withArg, noArg := some ⟨ResultShape.void, f⟩, resultPoll := resultPoll })
      = []
    ∧ RepeatedPromiseFactory.MakeVoid
        { withArg := withArg, noArg := some ⟨ResultShape.void, f⟩, resultPoll := resultPoll }
        f_ w = none
    ∧ resolve (onceSite false)
        (Callable.shape
          { withArg := withArg, noArg := some ⟨ResultShape.void, f⟩, resultPoll := resultPoll })
      = Resolution.selected Overload.onceVoid
    ∧ OncePromiseFactory.MakeVoid
        { withArg := withArg, noArg := some ⟨ResultShape.void, f⟩, resultPoll := resultPoll }
        f_ w
      = some (MadePromise.emptyReady,
          { ext := (f f_ w.ext).2.2, calls := w.calls ++ [CallEvent.noArg] })
    ∧ ∀ w2 : World W A,
        (MadePromise.emptyReady : MadePromise S W A T P).poll w2
          = some (Poll.ready Payload.empty, MadePromise.emptyReady, w2) :=
  ⟨rfl, rfl, rfl, rfl, fun _ => rfl⟩

/-- C16: for every value `v`, the first poll of `Immediate(v)` returns Ready(v), leaves the
outside state alone, and is not Pending. -/
theorem immediate_first_poll_is_ready {T W : Type} (v : T) (w : W) :
    Immediate.poll (Immediate.make v) w = some (Poll.ready v, { value_ := none }, w)
    ∧ ∀ (p : Immediate T) (w' : W),
        Immediate.poll (Immediate.make v) w ≠ some (Poll.pending, p, w') := by
  refine ⟨rfl, ?_⟩
  intro p w' h
  simp [Immediate.poll, Immediate.make] at h

/-- C17: `NowOrNever(p)` polls `p` exactly once: it returns the value `v` when that poll is
Ready(v) and no value when that poll is Pending, and the outside state afterwards is
the one that single poll left (a promise that counts its polls counts one). Hence
`NowOrNever(Immediate(v))` is the present value `v` for every `v`, 42 in the test. -/
theorem now_or_never_polls_once {St W T : Type} (poll : PromisePoll St W T) (promise : St)
    (w : W) :
    (∀ (v : T) (p' : St) (w' : W), poll promise w = some (Poll.ready v, p', w') →
        NowOrNever poll promise w = some (some v, w'))
    ∧ (∀ (p' : St) (w' : W), poll promise w = some (Poll.pending, p', w') →
        NowOrNever poll promise w = some (none, w'))
    ∧ (poll promise w = none → NowOrNever poll promise w = none)
    ∧ (∀ v : T, NowOrNever Immediate.poll (Immediate.make v) w = some (some v, w))
    ∧ NowOrNever Immediate.poll (Immediate.make (42 : Int)) w = some (some 42, w)
    ∧ NowOrNever countingPending () 0 = some (none, 1) := by
  refine ⟨?_, ?_, ?_, fun _ => rfl, rfl, rfl⟩
  · intro v p' w' h
    simp [NowOrNever, h]
  · intro p' w' h
    simp [NowOrNever, h]
  · intro h
    simp [NowOrNever, h]

/-- C18: the result-type assertion wrapper forwards polls unchanged: when the declared type
is the value type of the wrapped promise, `AssertResultType` builds, and any number of
polls of the wrapper in a row return exactly what the same number of polls of the
wrapped promise return and leave the same outside state; in particular
`AssertResultType<int>(Immediate(v))` polled once returns Ready(v). When the declared
type differs from the value type of the wrapped promise, as for `int` declared
around a `std::string` or a `double` promise, the build is rejected. -/
theorem assert_result_type_forwards_polls {Ty St W T : Type} [DecidableEq Ty]
    (poll : PromisePoll St W T) (expected actual : Ty) (promise : St) :
    AssertResultType expected expected promise = some { promise := promise }
    ∧ (∀ (n : Nat) (w : W),
        pollTimes (AssertedPromise.poll poll) n { promise := promise } w
          = pollTimes poll n promise w)
    ∧ ((AssertResultType expected actual promise).isSome = true ↔ expected = actual)
    ∧ (∀ (v : Int) (w : W),
        (AssertResultType CppType.int CppType.int (Immediate.make v)).bind
            (fun a => AssertedPromise.poll Immediate.poll a w)
          = some (Poll.ready v, { promise := { value_ := none } }, w))
    ∧ AssertResultType CppType.int CppType.string (Immediate.make "hello") = none
    ∧ AssertResultType CppType.int CppType.double (Immediate.make (429 / 10 : ℚ)) = none := by
  refine ⟨by simp [AssertResultType], ?_, ?_, fun _ _ => rfl, rfl, rfl⟩
  · intro n
    induction n generalizing promise with
    | zero => intro w; rfl
    | succ n ih =>
      intro w
      cases h : poll promise w with
      | none => simp [pollTimes, AssertedPromise.poll, h]
      | some r => simp [pollTimes, AssertedPromise.poll, h, ih]
  · by_cases h : expected = actual <;> simp [AssertResultType, h]

/-- C19: the diagnostic probe is decided by the promise type alone: kHasToJsonMethod is true
exactly for the promise types that expose a ToJson operation, true for `FooPromise`
and false for the plain nullary lambda of the test, which has none; and
`PromiseAsJson` of a promise whose ToJson returns the empty object dumps as the text
of an opening and a closing brace. -/
theorem has_to_json_method_probe {St : Type} (P : PromiseType St) (promise : St) :
    (kHasToJsonMethod P = true ↔ ∃ toJson, P.ToJson = some toJson)
    ∧ kHasToJsonMethod FooPromise = true
    ∧ kHasToJsonMethod plainLambda = false
    ∧ (PromiseAsJson { ToJson := some (fun _ => Json.object []) } promise).map JsonDump
        = some "\x7b\x7d"
    ∧ (PromiseAsJson FooPromise ()).map JsonDump = some "\x7b\x7d" := by
  refine ⟨?_, rfl, rfl, by simp [PromiseAsJson, JsonDump, JsonDumpMembers], by decide⟩
  rcases P with ⟨_ | f⟩
  · simp [kHasToJsonMethod]
  · simp [kHasToJsonMethod]

end promise_detail

/-! ### URIs -/

theorem ch_percent : ch '%' = (37 : Byte) := by decide

set_option maxRecDepth 100000 in
theorem hex_upper_roundtrip : ∀ c : Byte,
    AsciiStrToUpper (BytesToHexString [c])
      = [(lit "0123456789ABCDEF").getD (c.val / 16) 0, (lit "0123456789ABCDEF").getD (c.val % 16) 0] := by
  decide

set_option maxRecDepth 100000 in
theorem cunescape_hex_of_encoded : ∀ c : Byte,
    CUnescapeHex ((lit "0123456789ABCDEF").getD (c.val / 16) 0)
      ((lit "0123456789ABCDEF").getD (c.val % 16) 0) = some [c] := by
  decide

theorem PercentDecodeLoop_cons_of_ne (c : Byte) (t : Bytes) (h : c ≠ ch '%') :
    URI.PercentDecodeLoop (c :: t) = c :: URI.PercentDecodeLoop t := by
  cases t with
  | nil => rfl
  | cons a t =>
    cases t with
    | nil => rfl
    | cons b r => simp [URI.PercentDecodeLoop, h]

theorem PercentDecodeLoop_of_not_mem (s : Bytes) (h : ch '%' ∉ s) :
    URI.PercentDecodeLoop s = s := by
  induction s with
  | nil => rfl
  | cons c t ih =>
    have hc : c ≠ ch '%' := fun e => h (by simp [e])
    have ht : ch '%' ∉ t := fun e => h (by simp [e])
    rw [PercentDecodeLoop_cons_of_ne c t hc, ih ht]

theorem PercentDecode_eq_loop (s : Bytes) : URI.PercentDecode s = URI.PercentDecodeLoop s := by
  unfold URI.PercentDecode
  split
  · rename_i h
    cases s with
    | nil => rfl
    | cons c t =>
      have h2 : ch '%' ∉ c :: t := by
        simpa using h
      exact (PercentDecodeLoop_of_not_mem _ h2).symm
  · rfl

set_option maxRecDepth 100000 in
theorem CUnescapeHex_of_xdigits : ∀ a b : Byte, ascii_isxdigit a = true →
    ascii_isxdigit b = true →
    CUnescapeHex a b = some [Fin.ofNat (hex_value a * 16 + hex_value b)] := by
  intro a b ha hb
  have h1 : ∀ a : Byte, ascii_isxdigit a = true → hex_digit_to_int a = hex_value a := by decide
  simp [CUnescapeHex, ha, hb, h1 a ha, h1 b hb]

theorem CUnescapeHex_length_one (a b : Byte) (u : Bytes) (h : CUnescapeHex a b = some u)
    (hl : u.length = 1) : ascii_isxdigit a = true ∧ ascii_isxdigit b = true := by
  unfold CUnescapeHex at h
  split at h
  · cases h
  · split at h
    · rename_i h1 h2
      exact ⟨by simpa using h1, h2⟩
    · split at h
      · cases h
      · cases h
        simp at hl

theorem PercentDecodeLoop_percent_xdigits (a b : Byte) (rest : Bytes)
    (ha : ascii_isxdigit a = true) (hb : ascii_isxdigit b = true) :
    URI.PercentDecodeLoop (ch '%' :: a :: b :: rest)
      = Fin.ofNat (hex_value a * 16 + hex_value b) :: URI.PercentDecodeLoop rest := by
  simp [URI.PercentDecodeLoop, CUnescapeHex_of_xdigits a b ha hb]

theorem PercentDecodeLoop_cons_of_not_triplet (c : Byte) (rest : Bytes)
    (h : ∀ a b t, rest = a :: b :: t → ¬ (ascii_isxdigit a = true ∧ ascii_isxdigit b = true)) :
    URI.PercentDecodeLoop (c :: rest) = c :: URI.PercentDecodeLoop rest := by
  cases rest with
  | nil => rfl
  | cons a t =>
    cases t with
    | nil => rfl
    | cons b r =>
      have hn := h a b r rfl
      cases hu : CUnescapeHex a b with
      | none => simp [URI.PercentDecodeLoop, hu]
      | some u =>
        have hl : u.length ≠ 1 := fun hl => hn (CUnescapeHex_length_one a b u hu hl)
        simp [URI.PercentDecodeLoop, hu, hl]

theorem PercentEncode_cons (c : Byte) (rest : Bytes) (allowed : Byte → Bool) :
    PercentEncode (c :: rest) allowed
      = (if allowed c then [c]
          else [ch '%', upper_hex_digit (c.val / 16), upper_hex_digit (c.val % 16)])
        ++ PercentEncode rest allowed := by
  cases h : allowed c
  · simp [PercentEncode, h, hex_upper_roundtrip c, upper_hex_digit]
  · simp [PercentEncode, h]

set_option maxRecDepth 100000 in
theorem upper_hex_digit_mem : ∀ c : Byte,
    upper_hex_digit (c.val / 16) ∈ lit "0123456789ABCDEF"
      ∧ upper_hex_digit (c.val % 16) ∈ lit "0123456789ABCDEF" := by
  decide

theorem mem_PercentEncode (allowed : Byte → Bool) (s : Bytes) (x : Byte)
    (h : x ∈ PercentEncode s allowed) :
    allowed x = true ∨ x = ch '%' ∨ x ∈ lit "0123456789ABCDEF" := by
  induction s with
  | nil => simp [PercentEncode] at h
  | cons c rest ih =>
    rw [PercentEncode_cons] at h
    rcases List.mem_append.mp h with h1 | h1
    · cases hc : allowed c
      · simp only [hc, Bool.false_eq_true, if_false, List.mem_cons, List.mem_singleton,
          List.not_mem_nil, or_false] at h1
        rcases h1 with h1 | h1 | h1
        · exact Or.inr (Or.inl h1)
        · exact Or.inr (Or.inr (h1 ▸ (upper_hex_digit_mem c).1))
        · exact Or.inr (Or.inr (h1 ▸ (upper_hex_digit_mem c).2))
      · simp only [hc, if_true, List.mem_singleton] at h1
        exact Or.inl (h1 ▸ hc)
    · exact ih h1

theorem PercentEncode_of_all_allowed (allowed : Byte → Bool) (s : Bytes)
    (h : ∀ c ∈ s, allowed c = true) : PercentEncode s allowed = s := by
  induction s with
  | nil => rfl
  | cons c rest ih =>
    rw [PercentEncode_cons, h c (by simp), ih (fun x hx => h x (by simp [hx]))]
    rfl

theorem PercentDecodeLoop_PercentEncode (allowed : Byte → Bool)
    (hp : allowed (ch '%') = false) (s : Bytes) :
    URI.PercentDecodeLoop (PercentEncode s allowed) = s := by
  induction s with
  | nil => rfl
  | cons c rest ih =>
    rw [PercentEncode_cons]
    cases hc : allowed c
    · simp only [Bool.false_eq_true, if_false, List.cons_append, List.nil_append]
      have hu : CUnescapeHex (upper_hex_digit (c.val / 16)) (upper_hex_digit (c.val % 16))
          = some [c] := cunescape_hex_of_encoded c
      simp [URI.PercentDecodeLoop, hu, ih]
    · have hne : c ≠ ch '%' := fun e => by rw [e, hp] at hc; cases hc
      simp only [if_true, List.cons_append, List.nil_append]
      rw [PercentDecodeLoop_cons_of_ne c _ hne, ih]

theorem PercentDecode_PercentEncode (allowed : Byte → Bool)
    (hp : allowed (ch '%') = false) (s : Bytes) :
    URI.PercentDecode (PercentEncode s allowed) = s := by
  rw [PercentDecode_eq_loop, PercentDecodeLoop_PercentEncode allowed hp s]

theorem not_in_eq_true (chars : Bytes) (x : Byte) : not_in chars x = true ↔ x ∉ chars := by
  simp [not_in]

theorem not_in_eq_false (chars : Bytes) (x : Byte) : not_in chars x = false ↔ x ∈ chars := by
  simp [not_in]

theorem substr_find_first_of (s chars : Bytes) :
    substr s 0 (find_first_of s chars) = s.takeWhile (not_in chars)
      ∧ advance s (find_first_of s chars) = s.dropWhile (not_in chars) := by
  induction s with
  | nil => exact ⟨rfl, rfl⟩
  | cons c rest ih =>
    unfold find_first_of
    by_cases hm : c ∈ chars
    · simp [substr, advance, List.takeWhile, List.dropWhile, not_in, hm]
    · cases hf : find_first_of rest chars with
      | none =>
        rw [hf] at ih
        simp only [substr, advance, List.drop_zero] at ih
        simp [substr, advance, List.takeWhile, List.dropWhile, not_in, hm, ← ih.1, ← ih.2]
      | some k =>
        rw [hf] at ih
        simp only [substr, advance, List.drop_zero] at ih
        simp [substr, advance, List.takeWhile, List.dropWhile, not_in, hm, ← ih.1, ← ih.2]

theorem find_eq_find_first_of (s : Bytes) (c : Byte) : find s c = find_first_of s [c] := by
  induction s with
  | nil => rfl
  | cons d rest ih =>
    unfold find find_first_of
    rw [ih]
    by_cases h : d = c
    · simp [h]
    · simp [h]

theorem find_first_of_eq_none (s chars : Bytes) :
    find_first_of s chars = none ↔ ∀ x ∈ s, x ∉ chars := by
  induction s with
  | nil => simp [find_first_of]
  | cons c rest ih =>
    unfold find_first_of
    by_cases hm : c ∈ chars
    · simp [hm]
    · simp [hm, ih]

theorem find_first_of_eq_zero (s chars : Bytes) :
    find_first_of s chars = some 0 ↔ ∃ c t, s = c :: t ∧ c ∈ chars := by
  cases s with
  | nil => simp [find_first_of]
  | cons c rest =>
    unfold find_first_of
    by_cases hm : c ∈ chars
    · simp [hm]
    · cases hf : find_first_of rest chars <;> simp [hm]

theorem takeWhile_dropWhile_append_stop (p : Byte → Bool) (l r : Bytes)
    (hl : ∀ x ∈ l, p x = true) (hr : ∀ c t, r = c :: t → p c = false) :
    (l ++ r).takeWhile p = l ∧ (l ++ r).dropWhile p = r := by
  induction l with
  | nil =>
    cases r with
    | nil => exact ⟨rfl, rfl⟩
    | cons c t => simp [List.takeWhile, List.dropWhile, hr c t rfl]
  | cons a l ih =>
    have ha : p a = true := hl a (by simp)
    have ih2 := ih (fun x hx => hl x (by simp [hx]))
    simp [List.takeWhile, List.dropWhile, ha, ih2.1, ih2.2]

theorem lit_slash_slash : lit "//" = [ch '/', ch '/'] := rfl

theorem lit_question : lit "?" = [ch '?'] := rfl

theorem lit_hash : lit "#" = [ch '#'] := rfl

theorem lit_colon : lit ":" = [ch ':'] := rfl

theorem lit_at : lit "@" = [ch '@'] := rfl

theorem lit_eq : lit "=" = [ch '='] := rfl

theorem lit_amp : lit "&" = [ch '&'] := rfl

theorem PercentDecode_nil : URI.PercentDecode [] = [] := rfl

theorem ParsePath_eq (r : Bytes) :
    URI.ParsePath r
      = (URI.PercentDecode (r.takeWhile (not_in (lit "?#"))), r.dropWhile (not_in (lit "?#"))) := by
  unfold URI.ParsePath
  cases r with
  | nil => rfl
  | cons c t =>
    simp only [List.isEmpty_cons, Bool.not_false, if_true]
    rw [(substr_find_first_of (c :: t) (lit "?#")).1, (substr_find_first_of (c :: t) (lit "?#")).2]

theorem ParseAuthority_of_slashes (r : Bytes) :
    URI.ParseAuthority (ch '/' :: ch '/' :: r)
      = (URI.PercentDecode
            (match rfind (r.takeWhile (not_in (lit "/?#"))) (ch '@') with
              | none => ([] : Bytes)
              | some at_pos => (r.takeWhile (not_in (lit "/?#"))).take at_pos),
          URI.PercentDecode
            (match rfind (r.takeWhile (not_in (lit "/?#"))) (ch '@') with
              | none => r.takeWhile (not_in (lit "/?#"))
              | some at_pos => (r.takeWhile (not_in (lit "/?#"))).drop (at_pos + 1)),
          r.dropWhile (not_in (lit "/?#"))) := by
  unfold URI.ParseAuthority
  have h : ConsumePrefix (ch '/' :: ch '/' :: r) (lit "//") = some r := by
    simp [ConsumePrefix, lit_slash_slash]
  rw [h]
  simp only
  rw [(substr_find_first_of r (lit "/?#")).1, (substr_find_first_of r (lit "/?#")).2]
  cases rfind (r.takeWhile (not_in (lit "/?#"))) (ch '@') <;> simp [substr]

theorem ParseAuthority_of_not_slashes (r : Bytes)
    (h : ∀ t, r ≠ ch '/' :: ch '/' :: t) : URI.ParseAuthority r = ([], [], r) := by
  unfold URI.ParseAuthority
  have h2 : ConsumePrefix r (lit "//") = none := by
    unfold ConsumePrefix
    rw [lit_slash_slash]
    cases r with
    | nil => rfl
    | cons a t =>
      cases t with
      | nil => simp [List.isPrefixOf]
      | cons b t2 =>
        have := h t2
        by_cases ha : a = ch '/'
        · by_cases hb : b = ch '/'
          · exact absurd (by rw [ha, hb]) this
          · simp [List.isPrefixOf, ha, hb]
            exact fun e => hb e.symm
        · simp [List.isPrefixOf, ha]
          exact fun e => absurd e.symm ha
  rw [h2]

theorem ParseQuery_of_question (r : Bytes) :
    URI.ParseQuery (ch '?' :: r)
      = if (r.takeWhile (not_in [ch '#'])).isEmpty then Except.error ParseError.invalid_query_string
        else if !IsQueryOrFragmentString (r.takeWhile (not_in [ch '#'])) then
          Except.error ParseError.query_invalid_characters
        else Except.ok (URI.ParseQueryParams (StrSplit (r.takeWhile (not_in [ch '#'])) (ch '&')),
          r.dropWhile (not_in [ch '#'])) := by
  unfold URI.ParseQuery
  have h : ConsumePrefix (ch '?' :: r) (lit "?") = some r := by
    simp [ConsumePrefix, lit_question]
  rw [h]
  simp only
  rw [find_eq_find_first_of, (substr_find_first_of r [ch '#']).1,
    (substr_find_first_of r [ch '#']).2]

theorem ParseQuery_of_not_question (r : Bytes) (h : ∀ t, r ≠ ch '?' :: t) :
    URI.ParseQuery r = Except.ok ([], r) := by
  unfold URI.ParseQuery
  have h2 : ConsumePrefix r (lit "?") = none := by
    unfold ConsumePrefix
    rw [lit_question]
    cases r with
    | nil => rfl
    | cons a t =>
      have ha : a ≠ ch '?' := fun e => h t (by rw [e])
      simp [List.isPrefixOf, ha]
      exact fun e => ha e.symm
  rw [h2]

theorem ParseFragment_of_hash (r : Bytes) :
    URI.ParseFragment (ch '#' :: r)
      = if !IsQueryOrFragmentString r then Except.error ParseError.fragment_invalid_characters
        else Except.ok (URI.PercentDecode r) := by
  unfold URI.ParseFragment
  have h : ConsumePrefix (ch '#' :: r) (lit "#") = some r := by
    simp [ConsumePrefix, lit_hash]
  rw [h]

theorem ParseFragment_of_not_hash (r : Bytes) (h : ∀ t, r ≠ ch '#' :: t) :
    URI.ParseFragment r = Except.ok [] := by
  unfold URI.ParseFragment
  have h2 : ConsumePrefix r (lit "#") = none := by
    unfold ConsumePrefix
    rw [lit_hash]
    cases r with
    | nil => rfl
    | cons a t =>
      have ha : a ≠ ch '#' := fun e => h t (by rw [e])
      simp [List.isPrefixOf, ha]
      exact fun e => ha e.symm
  rw [h2]

theorem find_append_of_not_mem (l r : Bytes) (c : Byte) (h : c ∉ l) :
    find (l ++ c :: r) c = some l.length := by
  induction l with
  | nil => simp [find]
  | cons a l ih =>
    have ha : a ≠ c := fun e => h (by simp [e])
    have hl : c ∉ l := fun e => h (by simp [e])
    simp [find, ha, ih hl]

theorem find_eq_none_of_not_mem (s : Bytes) (c : Byte) (h : c ∉ s) : find s c = none := by
  rw [find_eq_find_first_of, find_first_of_eq_none]
  intro x hx hc
  simp only [List.mem_singleton] at hc
  exact h (hc ▸ hx)

theorem find_first_not_of_eq_none (s chars : Bytes) :
    find_first_not_of s chars = none ↔ ∀ x ∈ s, x ∈ chars := by
  induction s with
  | nil => simp [find_first_not_of]
  | cons c rest ih =>
    unfold find_first_not_of
    by_cases hm : c ∈ chars
    · simp [hm, ih]
    · simp [hm]

theorem Parse_of_no_colon (t : Bytes) (h : ch ':' ∉ t) :
    URI.Parse t = Except.error ParseError.scheme_not_found := by
  unfold URI.Parse
  rw [find_eq_none_of_not_mem t _ h]

theorem Parse_of_leading_colon (r : Bytes) :
    URI.Parse (ch ':' :: r) = Except.error ParseError.scheme_not_found := by
  unfold URI.Parse
  simp [find]

theorem Parse_of_scheme (scheme rest : Bytes) (h1 : ch ':' ∉ scheme) (h2 : scheme ≠ []) :
    URI.Parse (scheme ++ ch ':' :: rest)
      = if (find_first_not_of scheme kSchemeAlphabet).isSome then
          Except.error ParseError.scheme_invalid_characters
        else if !ascii_isalpha (scheme.headD 0) then
          Except.error ParseError.scheme_must_begin_with_alpha
        else
          match URI.ParseQuery (URI.ParsePath (URI.ParseAuthority rest).2.2).2 with
          | .error e => Except.error e
          | .ok query =>
            match URI.ParseFragment query.2 with
            | .error e => Except.error e
            | .ok fragment =>
              Except.ok (URI.URI scheme (URI.ParseAuthority rest).1 (URI.ParseAuthority rest).2.1
                (URI.ParsePath (URI.ParseAuthority rest).2.2).1 query.1 fragment) := by
  unfold URI.Parse
  rw [find_append_of_not_mem scheme rest _ h1]
  have hlen : scheme.length ≠ 0 := fun e => h2 (List.length_eq_zero.mp e)
  have hsub : substr (scheme ++ ch ':' :: rest) 0 (some scheme.length) = scheme := by
    simp [substr]
  have hdrop : (scheme ++ ch ':' :: rest).drop (scheme.length + 1) = rest := by
    rw [← List.drop_drop]
    simp
  simp only [hsub, hdrop, beq_iff_eq, hlen, if_false]

theorem dropWhile_head (p : Byte → Bool) (l : Bytes) (c : Byte) (t : Bytes)
    (h : l.dropWhile p = c :: t) : p c = false := by
  induction l with
  | nil => simp at h
  | cons a l ih =>
    cases ha : p a
    · simp [List.dropWhile, ha] at h
      rw [← h.1]
      exact ha
    · simp [List.dropWhile, ha] at h
      exact ih h

theorem dropWhile_dropWhile_of_imp (p q : Byte → Bool) (l : Bytes)
    (h : ∀ x, q x = true → p x = true) :
    (l.dropWhile q).dropWhile p = l.dropWhile p := by
  induction l with
  | nil => rfl
  | cons a l ih =>
    cases hq : q a
    · simp [List.dropWhile, hq]
    · simp [List.dropWhile, hq, h a hq, ih]

theorem remaining_after_path (rest : Bytes) :
    (URI.ParsePath (URI.ParseAuthority rest).2.2).2 = rest.dropWhile (not_in (lit "?#")) := by
  rw [ParsePath_eq]
  simp only
  by_cases h : ∃ t, rest = ch '/' :: ch '/' :: t
  · obtain ⟨t, rfl⟩ := h
    rw [ParseAuthority_of_slashes]
    simp only
    rw [dropWhile_dropWhile_of_imp]
    · have h1 : not_in (lit "?#") (ch '/') = true := by decide
      simp [List.dropWhile, h1]
    · intro x hx
      rw [not_in_eq_true] at hx ⊢
      intro hm
      apply hx
      have : lit "/?#" = ch '/' :: lit "?#" := rfl
      rw [this]
      exact List.mem_cons_of_mem _ hm
  · rw [ParseAuthority_of_not_slashes rest (fun t e => h ⟨t, e⟩)]

theorem ParseQuery_of_parts (qo fo : Option Bytes) (hq : ∀ q, qo = some q → ch '#' ∉ q) :
    URI.ParseQuery (query_part qo ++ fragment_part fo)
      = match qo with
        | none => Except.ok ([], fragment_part fo)
        | some q =>
          if q.isEmpty then Except.error ParseError.invalid_query_string
          else if !IsQueryOrFragmentString q then Except.error ParseError.query_invalid_characters
          else Except.ok (URI.ParseQueryParams (StrSplit q (ch '&')), fragment_part fo) := by
  cases qo with
  | none =>
    simp only [query_part, List.nil_append]
    apply ParseQuery_of_not_question
    intro t e
    cases fo with
    | none => simp [fragment_part] at e
    | some f =>
      simp only [fragment_part, List.cons.injEq] at e
      exact absurd e.1 (by decide)
  | some q =>
    simp only [query_part, List.cons_append]
    rw [ParseQuery_of_question]
    have hs := takeWhile_dropWhile_append_stop (not_in [ch '#']) q (fragment_part fo)
      (fun x hx => by
        rw [not_in_eq_true]
        intro hm
        simp only [List.mem_singleton] at hm
        exact hq q rfl (hm ▸ hx))
      (fun c t e => by
        cases fo with
        | none => simp [fragment_part] at e
        | some f =>
          simp only [fragment_part, List.cons.injEq] at e
          rw [← e.1]
          decide)
    rw [hs.1, hs.2]

theorem ParseFragment_of_part (fo : Option Bytes) :
    URI.ParseFragment (fragment_part fo)
      = match fo with
        | none => Except.ok []
        | some f =>
          if !IsQueryOrFragmentString f then Except.error ParseError.fragment_invalid_characters
          else Except.ok (URI.PercentDecode f) := by
  cases fo with
  | none => rfl
  | some f => exact ParseFragment_of_hash f

theorem exists_parts (rest : Bytes) :
    ∃ (A : Bytes) (qo fo : Option Bytes),
      rest = A ++ (query_part qo ++ fragment_part fo)
      ∧ (∀ x ∈ A, x ≠ ch '?' ∧ x ≠ ch '#')
      ∧ (∀ q, qo = some q → ch '#' ∉ q) := by
  have hA : ∀ x ∈ rest.takeWhile (not_in (lit "?#")), x ≠ ch '?' ∧ x ≠ ch '#' := by
    intro x hx
    have := List.mem_takeWhile_imp hx
    rw [not_in_eq_true] at this
    constructor
    · intro e
      apply this
      rw [e]
      decide
    · intro e
      apply this
      rw [e]
      decide
  have hsplit := List.takeWhile_append_dropWhile (not_in (lit "?#")) rest
  cases hd : rest.dropWhile (not_in (lit "?#")) with
  | nil =>
    refine ⟨rest.takeWhile (not_in (lit "?#")), none, none, ?_, hA, ?_⟩
    · rw [hd] at hsplit
      simpa [query_part, fragment_part] using hsplit.symm
    · intro q hq
      cases hq
  | cons c t =>
    have hc := dropWhile_head _ _ _ _ hd
    rw [not_in_eq_false] at hc
    have hc2 : c = ch '?' ∨ c = ch '#' := by
      have : lit "?#" = [ch '?', ch '#'] := rfl
      rw [this] at hc
      simpa using hc
    rw [hd] at hsplit
    rcases hc2 with hc2 | hc2
    · subst hc2
      have hsplit2 := List.takeWhile_append_dropWhile (not_in [ch '#']) t
      have hq : ∀ x ∈ t.takeWhile (not_in [ch '#']), x ≠ ch '#' := by
        intro x hx
        have := List.mem_takeWhile_imp hx
        rw [not_in_eq_true] at this
        simpa using this
      cases hd2 : t.dropWhile (not_in [ch '#']) with
      | nil =>
        refine ⟨rest.takeWhile (not_in (lit "?#")), some (t.takeWhile (not_in [ch '#'])), none,
          ?_, hA, ?_⟩
        · rw [hd2] at hsplit2
          simp only [query_part, fragment_part, List.append_nil] at hsplit2 ⊢
          rw [hsplit2, hsplit]
        · intro q hq2
          cases hq2
          exact fun hm => hq _ hm rfl
      | cons c2 t2 =>
        have hc3 := dropWhile_head _ _ _ _ hd2
        rw [not_in_eq_false] at hc3
        simp only [List.mem_singleton] at hc3
        subst hc3
        refine ⟨rest.takeWhile (not_in (lit "?#")), some (t.takeWhile (not_in [ch '#'])),
          some t2, ?_, hA, ?_⟩
        · rw [hd2] at hsplit2
          simp only [query_part, fragment_part, List.cons_append]
          rw [hsplit2, hsplit]
        · intro q hq2
          cases hq2
          exact fun hm => hq _ hm rfl
    · subst hc2
      refine ⟨rest.takeWhile (not_in (lit "?#")), none, some t, ?_, hA, ?_⟩
      · simpa [query_part, fragment_part] using hsplit.symm
      · intro q hq
        cases hq

theorem not_in_singleton (c : Byte) : not_in [c] = fun x => x != c := by
  funext x
  by_cases h : x = c <;> simp [not_in, h]

theorem text_before_first_append (c : Byte) (l r : Bytes) (h : c ∉ l) :
    text_before_first c (l ++ c :: r) = l := by
  unfold text_before_first
  rw [← not_in_singleton]
  exact (takeWhile_dropWhile_append_stop (not_in [c]) l (c :: r)
    (fun x hx => by
      rw [not_in_eq_true]
      intro hm
      simp only [List.mem_singleton] at hm
      exact h (hm ▸ hx))
    (fun d t e => by
      simp only [List.cons.injEq] at e
      rw [← e.1, not_in_eq_false]
      simp)).1

theorem text_after_first_append (c : Byte) (l r : Bytes) (h : c ∉ l) :
    text_after_first c (l ++ c :: r) = some r := by
  unfold text_after_first
  rw [← not_in_singleton]
  have := (takeWhile_dropWhile_append_stop (not_in [c]) l (c :: r)
    (fun x hx => by
      rw [not_in_eq_true]
      intro hm
      simp only [List.mem_singleton] at hm
      exact h (hm ▸ hx))
    (fun d t e => by
      simp only [List.cons.injEq] at e
      rw [← e.1, not_in_eq_false]
      simp)).2
  rw [this]
  simp

theorem text_before_first_of_not_mem (c : Byte) (l : Bytes) (h : c ∉ l) :
    text_before_first c l = l := by
  unfold text_before_first
  rw [List.takeWhile_eq_self_iff]
  intro x hx
  simp only [bne_iff_ne, ne_eq]
  exact fun e => h (e ▸ hx)

theorem text_after_first_of_not_mem (c : Byte) (l : Bytes) (h : c ∉ l) :
    text_after_first c l = none := by
  unfold text_after_first
  simp [h]

theorem not_mem_query_part (A : Bytes) (qo : Option Bytes)
    (hA : ∀ x ∈ A, x ≠ ch '?' ∧ x ≠ ch '#') (hq : ∀ q, qo = some q → ch '#' ∉ q) :
    ch '#' ∉ A ++ query_part qo := by
  intro hm
  rcases List.mem_append.mp hm with h | h
  · exact (hA _ h).2 rfl
  · cases qo with
    | none => simp [query_part] at h
    | some q =>
      simp only [query_part, List.mem_cons] at h
      rcases h with h | h
      · exact absurd h (by decide)
      · exact hq q rfl h

theorem spec_query_of_parts (scheme A : Bytes) (qo fo : Option Bytes) (h1 : ch ':' ∉ scheme)
    (hA : ∀ x ∈ A, x ≠ ch '?' ∧ x ≠ ch '#') (hq : ∀ q, qo = some q → ch '#' ∉ q) :
    spec_query (scheme ++ ch ':' :: (A ++ (query_part qo ++ fragment_part fo))) = qo := by
  unfold spec_query
  rw [text_after_first_append _ _ _ h1]
  simp only [Option.some_bind]
  have hb : text_before_first (ch '#') (A ++ (query_part qo ++ fragment_part fo))
      = A ++ query_part qo := by
    cases fo with
    | none =>
      simp only [fragment_part, List.append_nil]
      exact text_before_first_of_not_mem _ _ (not_mem_query_part A qo hA hq)
    | some f =>
      simp only [fragment_part]
      rw [← List.append_assoc]
      exact text_before_first_append _ _ _ (not_mem_query_part A qo hA hq)
  rw [hb]
  have hA2 : ch '?' ∉ A := fun hm => (hA _ hm).1 rfl
  cases qo with
  | none =>
    simp only [query_part, List.append_nil]
    exact text_after_first_of_not_mem _ _ hA2
  | some q =>
    simp only [query_part]
    exact text_after_first_append _ _ _ hA2

theorem spec_fragment_of_parts (scheme A : Bytes) (qo fo : Option Bytes) (h1 : ch ':' ∉ scheme)
    (hA : ∀ x ∈ A, x ≠ ch '?' ∧ x ≠ ch '#') (hq : ∀ q, qo = some q → ch '#' ∉ q) :
    spec_fragment (scheme ++ ch ':' :: (A ++ (query_part qo ++ fragment_part fo))) = fo := by
  unfold spec_fragment
  rw [text_after_first_append _ _ _ h1]
  simp only [Option.some_bind]
  cases fo with
  | none =>
    simp only [fragment_part, List.append_nil]
    exact text_after_first_of_not_mem _ _ (not_mem_query_part A qo hA hq)
  | some f =>
    simp only [fragment_part]
    rw [← List.append_assoc]
    exact text_after_first_append _ _ _ (not_mem_query_part A qo hA hq)

set_option maxRecDepth 100000 in
theorem kSchemeAlphabet_contains : ∀ c : Byte, kSchemeAlphabet.contains c = is_scheme_byte c := by
  decide

theorem IsQueryOrFragmentString_eq (s : Bytes) :
    IsQueryOrFragmentString s = !s.any is_invalid_query_byte := by
  induction s with
  | nil => rfl
  | cons c t ih =>
    simp only [IsQueryOrFragmentString, List.all_cons, List.any_cons] at ih ⊢
    rw [ih]
    simp [is_invalid_query_byte]

theorem find_first_not_of_isSome (s : Bytes) :
    (find_first_not_of s kSchemeAlphabet).isSome = s.any (fun c => !is_scheme_byte c) := by
  induction s with
  | nil => rfl
  | cons c t ih =>
    unfold find_first_not_of
    rw [kSchemeAlphabet_contains]
    cases h : is_scheme_byte c
    · simp [h]
    · simp only [Bool.not_true, Bool.false_eq_true, if_false, List.any_cons, h, Bool.false_or]
      rw [← ih]
      cases find_first_not_of t kSchemeAlphabet <;> rfl

theorem exists_first_split (c : Byte) (t : Bytes) (h : c ∈ t) :
    ∃ l r, t = l ++ c :: r ∧ c ∉ l := by
  induction t with
  | nil => simp at h
  | cons a t ih =>
    by_cases ha : a = c
    · exact ⟨[], t, by simp [ha], by simp⟩
    · have ht : c ∈ t := by
        rcases List.mem_cons.mp h with e | e
        · exact absurd e.symm ha
        · exact e
      obtain ⟨l, r, e, hl⟩ := ih ht
      refine ⟨a :: l, r, by simp [e], ?_⟩
      intro hm
      rcases List.mem_cons.mp hm with e2 | e2
      · exact ha e2.symm
      · exact hl e2

theorem dropWhile_parts (A : Bytes) (qo fo : Option Bytes)
    (hA : ∀ x ∈ A, x ≠ ch '?' ∧ x ≠ ch '#') :
    (A ++ (query_part qo ++ fragment_part fo)).takeWhile (not_in (lit "?#")) = A
    ∧ (A ++ (query_part qo ++ fragment_part fo)).dropWhile (not_in (lit "?#"))
      = query_part qo ++ fragment_part fo := by
  apply takeWhile_dropWhile_append_stop
  · intro x hx
    rw [not_in_eq_true]
    have : lit "?#" = [ch '?', ch '#'] := rfl
    rw [this]
    simp only [List.mem_cons, List.mem_singleton, List.not_mem_nil, or_false, not_or]
    exact hA x hx
  · intro c t e
    rw [not_in_eq_false]
    cases qo with
    | some q =>
      simp only [query_part, List.cons_append, List.cons.injEq] at e
      rw [← e.1]
      decide
    | none =>
      cases fo with
      | some f =>
        simp only [query_part, fragment_part, List.nil_append, List.cons.injEq] at e
        rw [← e.1]
        decide
      | none => simp [query_part, fragment_part] at e

theorem spec_parse_fails_of_parts (c : Byte) (s A : Bytes) (qo fo : Option Bytes)
    (h1 : ch ':' ∉ c :: s)
    (hA : ∀ x ∈ A, x ≠ ch '?' ∧ x ≠ ch '#') (hq : ∀ q, qo = some q → ch '#' ∉ q) :
    spec_parse_fails ((c :: s) ++ ch ':' :: (A ++ (query_part qo ++ fragment_part fo)))
      = ((c :: s).any (fun c => !is_scheme_byte c) || !ascii_isalpha c || qo == some [] ||
          has_invalid_query_byte qo || has_invalid_query_byte fo) := by
  unfold spec_parse_fails
  rw [spec_query_of_parts _ _ _ _ h1 hA hq, spec_fragment_of_parts _ _ _ _ h1 hA hq]
  have hs : spec_scheme ((c :: s) ++ ch ':' :: (A ++ (query_part qo ++ fragment_part fo)))
      = c :: s := text_before_first_append _ _ _ h1
  rw [hs]
  have hc : c ≠ ch ':' := fun e => h1 (by simp [e])
  have hb : (c == ch ':') = false := by simp [hc]
  simp [hb, begins_with_non_letter]

theorem Parse_agrees_with_spec (t : Bytes) :
    (URI.Parse t).toBool = !spec_parse_fails t := by
  by_cases hc : ch ':' ∈ t
  · obtain ⟨scheme, rest, rfl, h1⟩ := exists_first_split _ _ hc
    cases scheme with
    | nil =>
      rw [List.nil_append, Parse_of_leading_colon]
      simp [spec_parse_fails, Except.toBool]
    | cons c s =>
      obtain ⟨A, qo, fo, rfl, hA, hq⟩ := exists_parts rest
      rw [spec_parse_fails_of_parts c s A qo fo h1 hA hq,
        Parse_of_scheme (c :: s) _ h1 (by simp), remaining_after_path,
        (dropWhile_parts A qo fo hA).2, ParseQuery_of_parts qo fo hq, find_first_not_of_isSome,
        List.headD_cons]
      cases hs1 : (c :: s).any (fun c => !is_scheme_byte c)
      · cases hs2 : ascii_isalpha c
        · simp [Except.toBool]
        · cases qo with
          | none =>
            simp only [ParseFragment_of_part]
            cases fo with
            | none => simp [Except.toBool, has_invalid_query_byte]
            | some f =>
              simp only [IsQueryOrFragmentString_eq]
              cases hf : f.any is_invalid_query_byte <;>
                simp [Except.toBool, has_invalid_query_byte, hf]
          | some q =>
            cases q with
            | nil => simp [Except.toBool]
            | cons d q =>
              simp only [IsQueryOrFragmentString_eq, List.isEmpty_cons, Bool.false_eq_true,
                if_false]
              cases hq2 : (d :: q).any is_invalid_query_byte
              · simp only [Bool.not_false, Bool.not_true, Bool.false_eq_true, if_false,
                  ParseFragment_of_part, has_invalid_query_byte, hq2]
                cases fo with
                | none => simp [Except.toBool]
                | some f =>
                  simp only [IsQueryOrFragmentString_eq]
                  cases hf : f.any is_invalid_query_byte <;> simp [Except.toBool, hf]
              · simp only [Bool.not_true, Bool.not_false, if_true, has_invalid_query_byte, hq2]
                simp [Except.toBool]
      · simp [Except.toBool]
  · rw [Parse_of_no_colon t hc]
    simp [spec_parse_fails, hc, Except.toBool]

set_option maxRecDepth 100000 in
theorem path_bytes_stop : ∀ x : Byte,
    (IsPathChar x = true ∨ x = ch '%' ∨ x ∈ lit "0123456789ABCDEF") →
      x ≠ ch '?' ∧ x ≠ ch '#' := by
  decide

set_option maxRecDepth 100000 in
theorem user_info_bytes_stop : ∀ x : Byte,
    (IsUserInfoChar x = true ∨ x = ch '%' ∨ x ∈ lit "0123456789ABCDEF") →
      not_in (lit "/?#") x = true ∧ x ≠ ch '@' := by
  decide

set_option maxRecDepth 100000 in
theorem host_port_bytes_stop : ∀ x : Byte,
    (IsHostPortChar x = true ∨ x = ch '%' ∨ x ∈ lit "0123456789ABCDEF") →
      not_in (lit "/?#") x = true ∧ x ≠ ch '@' := by
  decide

set_option maxRecDepth 100000 in
theorem query_bytes_stop : ∀ x : Byte,
    (IsQueryKeyOrValueChar x = true ∨ x = ch '%' ∨ x ∈ lit "0123456789ABCDEF") →
      x ≠ ch '&' ∧ x ≠ ch '=' ∧ x ≠ ch '#' ∧ is_invalid_query_byte x = false := by
  decide

set_option maxRecDepth 100000 in
theorem fragment_bytes_valid : ∀ x : Byte,
    (IsQueryOrFragmentChar x = true ∨ x = ch '%' ∨ x ∈ lit "0123456789ABCDEF") →
      is_invalid_query_byte x = false := by
  decide

set_option maxRecDepth 100000 in
theorem scheme_bytes : ∀ x : Byte, is_scheme_byte x = true →
    IsSchemeChar x = true ∧ x ≠ ch ':' ∧ is_scheme_byte (ascii_tolower x) = true
      ∧ ascii_tolower (ascii_tolower x) = ascii_tolower x
      ∧ (ascii_isalpha x = true → ascii_isalpha (ascii_tolower x) = true) := by
  decide

set_option maxRecDepth 100000 in
theorem ascii_tolower_idem : ∀ x : Byte, ascii_tolower (ascii_tolower x) = ascii_tolower x := by
  decide

theorem AsciiStrToLower_idem (s : Bytes) :
    AsciiStrToLower (AsciiStrToLower s) = AsciiStrToLower s := by
  simp [AsciiStrToLower, ascii_tolower_idem]

theorem PercentEncode_eq_nil (allowed : Byte → Bool) (s : Bytes)
    (h : PercentEncode s allowed = []) : s = [] := by
  cases s with
  | nil => rfl
  | cons c t =>
    rw [PercentEncode_cons] at h
    cases hc : allowed c <;> simp [hc] at h

theorem rfind_append_of_not_mem (l r : Bytes) (c : Byte) (h : c ∉ r) :
    rfind (l ++ c :: r) c = some l.length := by
  have hr : ∀ r : Bytes, c ∉ r → rfind r c = none := by
    intro r
    induction r with
    | nil => intro _; rfl
    | cons a r ih =>
      intro h
      have ha : a ≠ c := fun e => h (by simp [e])
      have hr : c ∉ r := fun e => h (by simp [e])
      simp [rfind, ih hr, ha]
  induction l with
  | nil => simp [rfind, hr r h]
  | cons a l ih => simp [rfind, ih]

theorem rfind_eq_none_of_not_mem (r : Bytes) (c : Byte) (h : c ∉ r) : rfind r c = none := by
  induction r with
  | nil => rfl
  | cons a r ih =>
    have ha : a ≠ c := fun e => h (by simp [e])
    have hr : c ∉ r := fun e => h (by simp [e])
    simp [rfind, ih hr, ha]

theorem mem_intercalate (sep : Bytes) (ls : List Bytes) (x : Byte)
    (h : x ∈ sep.intercalate ls) : x ∈ sep ∨ ∃ l ∈ ls, x ∈ l := by
  induction ls with
  | nil => simp [List.intercalate] at h
  | cons a ls ih =>
    cases ls with
    | nil =>
      simp [List.intercalate] at h
      exact Or.inr ⟨a, by simp, h⟩
    | cons b ls =>
      have e : sep.intercalate (a :: b :: ls) = a ++ sep ++ sep.intercalate (b :: ls) := by
        simp [List.intercalate, List.intersperse]
      rw [e] at h
      rcases List.mem_append.mp h with h1 | h1
      · rcases List.mem_append.mp h1 with h2 | h2
        · exact Or.inr ⟨a, by simp, h2⟩
        · exact Or.inl h2
      · rcases ih h1 with h2 | ⟨l, hl, h2⟩
        · exact Or.inl h2
        · exact Or.inr ⟨l, List.mem_cons_of_mem _ hl, h2⟩

theorem mem_QueryParameterFormatter (kv : URI.QueryParam) (x : Byte)
    (h : x ∈ QueryParameterFormatter kv) :
    (IsQueryKeyOrValueChar x = true ∨ x = ch '%' ∨ x ∈ lit "0123456789ABCDEF") ∨ x = ch '=' := by
  unfold QueryParameterFormatter at h
  rw [lit_eq] at h
  rcases List.mem_append.mp h with h1 | h1
  · rcases List.mem_append.mp h1 with h2 | h2
    · exact Or.inl (mem_PercentEncode _ _ _ h2)
    · exact Or.inr (by simpa using h2)
  · exact Or.inl (mem_PercentEncode _ _ _ h1)

theorem StrSplitMaxSplits1_formatted (kv : URI.QueryParam) :
    StrSplitMaxSplits1 (QueryParameterFormatter kv) (ch '=')
      = (PercentEncode kv.key IsQueryKeyOrValueChar, PercentEncode kv.value IsQueryKeyOrValueChar) := by
  unfold StrSplitMaxSplits1 QueryParameterFormatter
  rw [lit_eq, List.append_assoc, List.singleton_append]
  have hk : ch '=' ∉ PercentEncode kv.key IsQueryKeyOrValueChar := fun hm =>
    (query_bytes_stop _ (mem_PercentEncode _ _ _ hm)).2.1 rfl
  rw [find_append_of_not_mem _ _ _ hk]
  simp only [List.take_left']
  rw [← List.drop_drop]
  simp

theorem ParseQueryParams_formatted (pairs : List URI.QueryParam)
    (hk : ∀ kv ∈ pairs, kv.key ≠ []) :
    URI.ParseQueryParams (pairs.map QueryParameterFormatter) = pairs := by
  induction pairs with
  | nil => rfl
  | cons kv rest ih =>
    have h1 : kv.key ≠ [] := hk kv (by simp)
    have h2 : PercentEncode kv.key IsQueryKeyOrValueChar ≠ [] :=
      fun e => h1 (PercentEncode_eq_nil _ _ e)
    have ih2 := ih (fun x hx => hk x (by simp [hx]))
    unfold URI.ParseQueryParams at ih2 ⊢
    rw [List.map_cons, List.filterMap_cons, ih2]
    simp only [StrSplitMaxSplits1_formatted]
    have h3 : (PercentEncode kv.key IsQueryKeyOrValueChar).isEmpty = false := by
      cases h : PercentEncode kv.key IsQueryKeyOrValueChar with
      | nil => exact absurd h h2
      | cons _ _ => rfl
    simp only [h3, Bool.false_eq_true, if_false]
    rw [PercentDecode_PercentEncode _ (by decide), PercentDecode_PercentEncode _ (by decide)]

theorem query_text_properties (pairs : List URI.QueryParam) (kv : URI.QueryParam)
    (hk : ∀ x ∈ kv :: pairs, x.key ≠ []) :
    StrJoin ((kv :: pairs).map QueryParameterFormatter) (lit "&") ≠ []
    ∧ ch '#' ∉ StrJoin ((kv :: pairs).map QueryParameterFormatter) (lit "&")
    ∧ IsQueryOrFragmentString (StrJoin ((kv :: pairs).map QueryParameterFormatter) (lit "&")) = true
    ∧ URI.ParseQueryParams
        (StrSplit (StrJoin ((kv :: pairs).map QueryParameterFormatter) (lit "&")) (ch '&'))
      = kv :: pairs := by
  have hmem : ∀ x ∈ StrJoin ((kv :: pairs).map QueryParameterFormatter) (lit "&"),
      x ≠ ch '#' ∧ is_invalid_query_byte x = false := by
    intro x hx
    unfold StrJoin at hx
    rcases mem_intercalate _ _ _ hx with h | ⟨l, hl, h⟩
    · rw [lit_amp, List.mem_singleton] at h
      rw [h]
      decide
    · obtain ⟨p, _, rfl⟩ := List.mem_map.mp hl
      rcases mem_QueryParameterFormatter p x h with h2 | h2
      · exact ⟨(query_bytes_stop x h2).2.2.1, (query_bytes_stop x h2).2.2.2⟩
      · rw [h2]
        decide
  refine ⟨?_, fun hm => (hmem _ hm).1 rfl, ?_, ?_⟩
  · have hne : QueryParameterFormatter kv ≠ [] := by
      unfold QueryParameterFormatter
      rw [lit_eq]
      simp
    have hex : ∃ r, (lit "&").intercalate ((kv :: pairs).map QueryParameterFormatter)
        = QueryParameterFormatter kv ++ r := by
      cases pairs with
      | nil => exact ⟨[], by simp [List.intercalate]⟩
      | cons b ls => exact ⟨_, by simp [List.intercalate, List.intersperse]; rfl⟩
    obtain ⟨r, hr⟩ := hex
    intro e
    unfold StrJoin at e
    rw [hr] at e
    exact hne (List.append_eq_nil.mp e).1
  · rw [IsQueryOrFragmentString_eq]
    simp only [Bool.not_eq_true', List.any_eq_false]
    intro x hx
    simp [(hmem x hx).2]
  · unfold StrSplit StrJoin
    rw [lit_amp, List.splitOn_intercalate]
    · exact ParseQueryParams_formatted _ hk
    · intro l hl hm
      obtain ⟨p, _, rfl⟩ := List.mem_map.mp hl
      rcases mem_QueryParameterFormatter p _ hm with h2 | h2
      · exact (query_bytes_stop _ h2).1 rfl
      · exact absurd h2 (by decide)
    · simp

theorem PercentEncode_nil (allowed : Byte → Bool) : PercentEncode [] allowed = [] := rfl

theorem ToString_eq (u : URI) :
    URI.ToString u
      = PercentEncode u.scheme_ IsSchemeChar ++ ch ':' ::
          ((if !u.user_info_.isEmpty || !u.host_port_.isEmpty || StartsWith u.path_ (lit "//")
              then ch '/' :: ch '/' :: encoded_authority u.user_info_ u.host_port_ else [])
            ++ (PercentEncode u.path_ IsPathChar
              ++ (query_part (encoded_query u.query_parameter_pairs_)
                ++ fragment_part (encoded_fragment u.fragment_)))) := by
  unfold URI.ToString URI.EncodedPathAndQueryParams encoded_authority encoded_query
    encoded_fragment
  rw [lit_colon, lit_slash_slash, lit_hash, lit_question]
  have hp : (if (!u.path_.isEmpty) = true then PercentEncode u.path_ IsPathChar else [])
      = PercentEncode u.path_ IsPathChar := by
    cases h : u.path_ with
    | nil => rfl
    | cons _ _ => rfl
  rw [hp]
  cases h1 : (!u.user_info_.isEmpty || !u.host_port_.isEmpty || StartsWith u.path_ [ch '/', ch '/'])
    <;> cases h2 : u.query_parameter_pairs_.isEmpty
    <;> cases h3 : u.fragment_.isEmpty
    <;> simp [query_part, fragment_part]

theorem StartsWith_slashes (path : Bytes) :
    StartsWith path (lit "//") = true ↔ ∃ p, path = ch '/' :: ch '/' :: p := by
  unfold StartsWith
  rw [lit_slash_slash]
  cases path with
  | nil => simp [List.isPrefixOf]
  | cons a t =>
    cases t with
    | nil => simp [List.isPrefixOf]
    | cons b t2 =>
      simp only [List.isPrefixOf, Bool.and_eq_true, beq_iff_eq, List.cons.injEq,
        exists_and_left, exists_eq', and_true, Bool.and_true]
      constructor
      · rintro ⟨h1, h2⟩
        exact ⟨h1.symm, h2.symm⟩
      · rintro ⟨h1, h2⟩
        exact ⟨h1.symm, h2.symm⟩

theorem parts_head (qo fo : Option Bytes) (c : Byte) (t : Bytes)
    (h : query_part qo ++ fragment_part fo = c :: t) : c = ch '?' ∨ c = ch '#' := by
  cases qo with
  | some q =>
    simp only [query_part, List.cons_append, List.cons.injEq] at h
    exact Or.inl h.1.symm
  | none =>
    cases fo with
    | some f =>
      simp only [query_part, fragment_part, List.nil_append, List.cons.injEq] at h
      exact Or.inr h.1.symm
    | none => simp [query_part, fragment_part] at h

theorem encoded_path_head (path : Bytes) (qo fo : Option Bytes)
    (hp : path = [] ∨ ∃ p, path = ch '/' :: p) (c : Byte) (t : Bytes)
    (h : PercentEncode path IsPathChar ++ (query_part qo ++ fragment_part fo) = c :: t) :
    not_in (lit "/?#") c = false := by
  rcases hp with rfl | ⟨p, rfl⟩
  · rw [PercentEncode_nil, List.nil_append] at h
    rcases parts_head qo fo c t h with e | e <;> rw [e] <;> decide
  · rw [PercentEncode_cons] at h
    have h1 : IsPathChar (ch '/') = true := by decide
    simp only [h1, if_true, List.singleton_append, List.cons_append, List.cons.injEq] at h
    rw [← h.1]
    decide

theorem encoded_path_no_slashes (path : Bytes) (qo fo : Option Bytes)
    (hp : ¬ ∃ p, path = ch '/' :: ch '/' :: p) (t : Bytes) :
    PercentEncode path IsPathChar ++ (query_part qo ++ fragment_part fo)
      ≠ ch '/' :: ch '/' :: t := by
  intro h
  have hne : ch '%' ≠ ch '/' := by decide
  have hq : ch '?' ≠ ch '/' := by decide
  have hh : ch '#' ≠ ch '/' := by decide
  cases path with
  | nil =>
    rw [PercentEncode_nil, List.nil_append] at h
    rcases parts_head qo fo _ _ h with e | e
    · exact hq e.symm
    · exact hh e.symm
  | cons a p =>
    rw [PercentEncode_cons] at h
    cases ha : IsPathChar a
    · simp only [ha, Bool.false_eq_true, if_false, List.cons_append, List.cons.injEq] at h
      exact hne h.1
    · simp only [ha, if_true, List.singleton_append, List.cons_append, List.cons.injEq] at h
      obtain ⟨ha2, h⟩ := h
      cases p with
      | nil =>
        rw [PercentEncode_nil] at h
        simp only [List.nil_append, List.append_nil] at h
        rcases parts_head qo fo _ _ h with e | e
        · exact hq e.symm
        · exact hh e.symm
      | cons b p2 =>
        rw [PercentEncode_cons] at h
        cases hb : IsPathChar b
        · simp only [hb, Bool.false_eq_true, if_false, List.cons_append, List.nil_append,
            List.append_assoc, List.cons.injEq] at h
          exact hne h.1
        · simp only [hb, if_true, List.singleton_append, List.cons_append, List.nil_append,
            List.append_assoc, List.cons.injEq] at h
          exact hp ⟨p2, by rw [ha2, h.1]⟩

theorem ParsePath_encoded (path : Bytes) (qo fo : Option Bytes) :
    URI.ParsePath (PercentEncode path IsPathChar ++ (query_part qo ++ fragment_part fo))
      = (path, query_part qo ++ fragment_part fo) := by
  rw [ParsePath_eq]
  have h := dropWhile_parts (PercentEncode path IsPathChar) qo fo
    (fun x hx => path_bytes_stop x (mem_PercentEncode _ _ _ hx))
  rw [h.1, h.2, PercentDecode_PercentEncode _ (by decide)]

theorem ParseAuthority_encoded (ui hp rest : Bytes)
    (hrest : ∀ c t, rest = c :: t → not_in (lit "/?#") c = false) :
    URI.ParseAuthority (ch '/' :: ch '/' :: (encoded_authority ui hp ++ rest))
      = (ui, hp, rest) := by
  rw [ParseAuthority_of_slashes]
  have hhp : ∀ x ∈ PercentEncode hp IsHostPortChar, not_in (lit "/?#") x = true ∧ x ≠ ch '@' :=
    fun x hx => host_port_bytes_stop x (mem_PercentEncode _ _ _ hx)
  have hui : ∀ x ∈ PercentEncode ui IsUserInfoChar, not_in (lit "/?#") x = true ∧ x ≠ ch '@' :=
    fun x hx => user_info_bytes_stop x (mem_PercentEncode _ _ _ hx)
  have hat : not_in (lit "/?#") (ch '@') = true := by decide
  have hall : ∀ x ∈ encoded_authority ui hp, not_in (lit "/?#") x = true := by
    intro x hx
    unfold encoded_authority at hx
    rcases List.mem_append.mp hx with h | h
    · cases hu : ui.isEmpty
      · simp only [hu, Bool.not_false, if_true, lit_at] at h
        rcases List.mem_append.mp h with h2 | h2
        · exact (hui x h2).1
        · rw [List.mem_singleton] at h2
          rw [h2]
          exact hat
      · simp [hu] at h
    · exact (hhp x h).1
  have hs := takeWhile_dropWhile_append_stop (not_in (lit "/?#")) (encoded_authority ui hp) rest
    hall hrest
  rw [hs.1, hs.2]
  have hnot : ch '@' ∉ PercentEncode hp IsHostPortChar := fun hm => (hhp _ hm).2 rfl
  cases ui with
  | nil =>
    have e : encoded_authority [] hp = PercentEncode hp IsHostPortChar := by
      simp [encoded_authority]
    rw [e, rfind_eq_none_of_not_mem _ _ hnot]
    simp only
    rw [PercentDecode_nil, PercentDecode_PercentEncode _ (by decide)]
  | cons a ui2 =>
    have e : encoded_authority (a :: ui2) hp
        = PercentEncode (a :: ui2) IsUserInfoChar ++ ch '@' :: PercentEncode hp IsHostPortChar := by
      simp [encoded_authority, lit_at]
    rw [e, rfind_append_of_not_mem _ _ _ hnot]
    simp only [List.take_left']
    rw [← List.drop_drop]
    simp only [List.drop_left', List.drop_one, List.tail_cons]
    rw [PercentDecode_PercentEncode _ (by decide), PercentDecode_PercentEncode _ (by decide)]

theorem ParseAuthority_of_printed (ui hp path : Bytes) (qo fo : Option Bytes)
    (ha : (ui ≠ [] ∨ hp ≠ []) → path = [] ∨ ∃ p, path = ch '/' :: p) :
    URI.ParseAuthority
        ((if !ui.isEmpty || !hp.isEmpty || StartsWith path (lit "//")
            then ch '/' :: ch '/' :: encoded_authority ui hp else [])
          ++ (PercentEncode path IsPathChar ++ (query_part qo ++ fragment_part fo)))
      = (ui, hp, PercentEncode path IsPathChar ++ (query_part qo ++ fragment_part fo)) := by
  cases hc : (!ui.isEmpty || !hp.isEmpty || StartsWith path (lit "//"))
  · simp only [Bool.or_eq_false_iff, Bool.not_eq_false', List.isEmpty_iff] at hc
    obtain ⟨⟨h1, h2⟩, h3⟩ := hc
    have h4 : ¬ ∃ p, path = ch '/' :: ch '/' :: p := by
      rw [← StartsWith_slashes, h3]
      simp
    simp only [Bool.false_eq_true, if_false, List.nil_append]
    rw [ParseAuthority_of_not_slashes _ (encoded_path_no_slashes path qo fo h4), h1, h2]
  · simp only [if_true, List.cons_append]
    have hp2 : path = [] ∨ ∃ p, path = ch '/' :: p := by
      by_cases h1 : ui ≠ [] ∨ hp ≠ []
      · exact ha h1
      · rw [not_or, not_not, not_not] at h1
        simp only [h1.1, h1.2, List.isEmpty_nil, Bool.not_true, Bool.false_or] at hc
        obtain ⟨p, hp3⟩ := (StartsWith_slashes path).mp hc
        exact Or.inr ⟨_, hp3⟩
    exact ParseAuthority_encoded ui hp _ (encoded_path_head path qo fo hp2)

theorem ParseQuery_of_printed (pairs : List URI.QueryParam) (fo : Option Bytes)
    (hk : ∀ kv ∈ pairs, kv.key ≠ []) :
    URI.ParseQuery (query_part (encoded_query pairs) ++ fragment_part fo)
      = Except.ok (pairs, fragment_part fo) := by
  cases pairs with
  | nil =>
    have e : encoded_query [] = none := rfl
    rw [e, ParseQuery_of_parts none fo (fun q h => by cases h)]
  | cons kv rest =>
    have e : encoded_query (kv :: rest)
        = some (StrJoin ((kv :: rest).map QueryParameterFormatter) (lit "&")) := rfl
    obtain ⟨h1, h2, h3, h4⟩ := query_text_properties rest kv hk
    rw [e, ParseQuery_of_parts _ fo (fun q h => by cases h; exact h2)]
    simp only
    have h5 : (StrJoin ((kv :: rest).map QueryParameterFormatter) (lit "&")).isEmpty = false := by
      cases h : StrJoin ((kv :: rest).map QueryParameterFormatter) (lit "&") with
      | nil => exact absurd h h1
      | cons _ _ => rfl
    simp only [h5, h3, h4, Bool.false_eq_true, if_false, Bool.not_true]

theorem ParseFragment_of_printed (frag : Bytes) :
    URI.ParseFragment (fragment_part (encoded_fragment frag)) = Except.ok frag := by
  cases frag with
  | nil => rfl
  | cons c f =>
    have e : encoded_fragment (c :: f)
        = some (PercentEncode (c :: f) IsQueryOrFragmentChar) := rfl
    rw [e, ParseFragment_of_part]
    simp only
    have hv : IsQueryOrFragmentString (PercentEncode (c :: f) IsQueryOrFragmentChar) = true := by
      rw [IsQueryOrFragmentString_eq]
      simp only [Bool.not_eq_true', List.any_eq_false]
      intro x hx
      simp [fragment_bytes_valid x (mem_PercentEncode _ _ _ hx)]
    simp only [hv, Bool.not_true, Bool.false_eq_true, if_false]
    rw [PercentDecode_PercentEncode _ (by decide)]

theorem URI_URI_lower (scheme ui hp path : Bytes) (pairs : List URI.QueryParam) (frag : Bytes) :
    URI.URI (AsciiStrToLower scheme) ui hp path pairs frag = URI.URI scheme ui hp path pairs frag := by
  simp [URI.URI, AsciiStrToLower_idem]

theorem Parse_ToString_of_wellformed (scheme ui hp path : Bytes)
    (pairs : List URI.QueryParam) (frag : Bytes)
    (hs1 : scheme ≠ []) (hs2 : ∀ c ∈ scheme, is_scheme_byte c = true)
    (hs3 : ascii_isalpha (scheme.headD 0) = true)
    (ha : (ui ≠ [] ∨ hp ≠ []) → path = [] ∨ ∃ p, path = ch '/' :: p)
    (hk : ∀ kv ∈ pairs, kv.key ≠ []) :
    URI.Parse (URI.ToString (URI.URI scheme ui hp path pairs frag))
      = Except.ok (URI.URI scheme ui hp path pairs frag) := by
  rw [ToString_eq]
  simp only [URI.URI]
  have hL2 : ∀ c ∈ AsciiStrToLower scheme, is_scheme_byte c = true := by
    intro c hc
    obtain ⟨d, hd, rfl⟩ := List.mem_map.mp hc
    exact (scheme_bytes d (hs2 d hd)).2.2.1
  have hL1 : AsciiStrToLower scheme ≠ [] := by
    cases scheme with
    | nil => exact absurd rfl hs1
    | cons c s => simp [AsciiStrToLower]
  have hL3 : ascii_isalpha ((AsciiStrToLower scheme).headD 0) = true := by
    cases scheme with
    | nil => exact absurd rfl hs1
    | cons c s =>
      simp only [AsciiStrToLower, List.map_cons, List.headD_cons] at hs3 ⊢
      exact (scheme_bytes c (hs2 c (by simp))).2.2.2.2 hs3
  have hL4 : ch ':' ∉ AsciiStrToLower scheme := fun hm =>
    (scheme_bytes _ (hL2 _ hm)).2.1 rfl
  have hL5 : PercentEncode (AsciiStrToLower scheme) IsSchemeChar = AsciiStrToLower scheme :=
    PercentEncode_of_all_allowed _ _ (fun c hc => (scheme_bytes c (hL2 c hc)).1)
  have hL6 : find_first_not_of (AsciiStrToLower scheme) kSchemeAlphabet = none := by
    rw [find_first_not_of_eq_none]
    intro x hx
    have := hL2 x hx
    rw [← kSchemeAlphabet_contains] at this
    simpa using this
  rw [hL5, Parse_of_scheme _ _ hL4 hL1, hL6, hL3,
    ParseAuthority_of_printed ui hp path _ _ ha]
  simp only [Option.isSome_none, Bool.false_eq_true, if_false, Bool.not_true]
  rw [ParsePath_encoded]
  simp only
  rw [ParseQuery_of_printed pairs _ hk]
  simp only
  rw [ParseFragment_of_printed]
  simp only [URI.URI, AsciiStrToLower_idem]

theorem PercentDecode_ne_nil (s : Bytes) (h : s ≠ []) : URI.PercentDecode s ≠ [] := by
  rw [PercentDecode_eq_loop]
  cases s with
  | nil => exact absurd rfl h
  | cons c t =>
    cases t with
    | nil => simp [URI.PercentDecodeLoop]
    | cons a t2 =>
      cases t2 with
      | nil => simp [URI.PercentDecodeLoop]
      | cons b r =>
        unfold URI.PercentDecodeLoop
        split <;> simp

theorem ParseQueryParams_keys (params : List Bytes) (kv : URI.QueryParam)
    (h : kv ∈ URI.ParseQueryParams params) : kv.key ≠ [] := by
  unfold URI.ParseQueryParams at h
  obtain ⟨a, _, ha⟩ := List.mem_filterMap.mp h
  simp only at ha
  split at ha
  · cases ha
  · rename_i hne
    cases ha
    simp only
    apply PercentDecode_ne_nil
    intro e
    apply hne
    rw [e]
    rfl

theorem ParseQuery_keys (r : Bytes) (query : List URI.QueryParam × Bytes)
    (h : URI.ParseQuery r = Except.ok query) : ∀ kv ∈ query.1, kv.key ≠ [] := by
  by_cases hq : ∃ t, r = ch '?' :: t
  · obtain ⟨t, rfl⟩ := hq
    rw [ParseQuery_of_question] at h
    split at h
    · cases h
    · split at h
      · cases h
      · cases h
        exact fun kv hkv => ParseQueryParams_keys _ kv hkv
  · rw [ParseQuery_of_not_question r (fun t e => hq ⟨t, e⟩)] at h
    cases h
    intro kv hkv
    simp at hkv

theorem authority_path_shape (rest : Bytes)
    (h : (URI.ParseAuthority rest).1 ≠ [] ∨ (URI.ParseAuthority rest).2.1 ≠ []) :
    (URI.ParsePath (URI.ParseAuthority rest).2.2).1 = []
      ∨ ∃ p, (URI.ParsePath (URI.ParseAuthority rest).2.2).1 = ch '/' :: p := by
  by_cases hs : ∃ t, rest = ch '/' :: ch '/' :: t
  · obtain ⟨r, rfl⟩ := hs
    rw [ParseAuthority_of_slashes, ParsePath_eq]
    simp only
    cases hd : r.dropWhile (not_in (lit "/?#")) with
    | nil => exact Or.inl rfl
    | cons c t =>
      have hc := dropWhile_head _ _ _ _ hd
      rw [not_in_eq_false] at hc
      have hl : lit "/?#" = [ch '/', ch '?', ch '#'] := rfl
      rw [hl] at hc
      simp only [List.mem_cons, List.mem_singleton, List.not_mem_nil, or_false] at hc
      rcases hc with hc | hc | hc
      · right
        subst hc
        have h1 : not_in (lit "?#") (ch '/') = true := by decide
        rw [List.takeWhile_cons, if_pos h1, PercentDecode_eq_loop,
          PercentDecodeLoop_cons_of_ne _ _ (by decide)]
        exact ⟨_, rfl⟩
      · left
        subst hc
        have h1 : not_in (lit "?#") (ch '?') = false := by decide
        rw [List.takeWhile_cons]
        simp only [h1, Bool.false_eq_true, if_false]
        rfl
      · left
        subst hc
        have h1 : not_in (lit "?#") (ch '#') = false := by decide
        rw [List.takeWhile_cons]
        simp only [h1, Bool.false_eq_true, if_false]
        rfl
  · rw [ParseAuthority_of_not_slashes rest (fun t e => hs ⟨t, e⟩)] at h
    simp at h

theorem Parse_wellformed (t : Bytes) (u : URI) (h : URI.Parse t = Except.ok u) :
    ∃ (scheme ui hp path : Bytes) (pairs : List URI.QueryParam) (frag : Bytes),
      u = URI.URI scheme ui hp path pairs frag
      ∧ scheme ≠ [] ∧ (∀ c ∈ scheme, is_scheme_byte c = true)
      ∧ ascii_isalpha (scheme.headD 0) = true
      ∧ ((ui ≠ [] ∨ hp ≠ []) → path = [] ∨ ∃ p, path = ch '/' :: p)
      ∧ ∀ kv ∈ pairs, kv.key ≠ [] := by
  by_cases hc : ch ':' ∈ t
  · obtain ⟨scheme, rest, rfl, h1⟩ := exists_first_split _ _ hc
    cases scheme with
    | nil =>
      rw [List.nil_append, Parse_of_leading_colon] at h
      cases h
    | cons c s =>
      rw [Parse_of_scheme (c :: s) _ h1 (by simp), find_first_not_of_isSome] at h
      cases hs1 : (c :: s).any (fun c => !is_scheme_byte c)
      · rw [hs1] at h
        simp only [Bool.false_eq_true, if_false] at h
        cases hs2 : ascii_isalpha ((c :: s).headD 0)
        · rw [hs2] at h
          simp at h
        · rw [hs2] at h
          simp only [Bool.not_true, Bool.false_eq_true, if_false] at h
          cases hq : URI.ParseQuery (URI.ParsePath (URI.ParseAuthority rest).2.2).2 with
          | error e =>
            rw [hq] at h
            cases h
          | ok query =>
            rw [hq] at h
            simp only at h
            cases hf : URI.ParseFragment query.2 with
            | error e =>
              rw [hf] at h
              cases h
            | ok fragment =>
              rw [hf] at h
              simp only [Except.ok.injEq] at h
              refine ⟨c :: s, _, _, _, _, _, h.symm, by simp, ?_, hs2,
                authority_path_shape rest, ParseQuery_keys _ _ hq⟩
              intro x hx
              have := List.any_eq_false.mp hs1 x hx
              simpa using this
      · rw [hs1] at h
        simp at h
  · rw [Parse_of_no_colon t hc] at h
    cases h

/-- C21: a URI that Parse returns survives printing and parsing again: for every text `t`
that Parse accepts with result `u`, Parse accepts `u.ToString()` and returns `u` itself,
so scheme, user_info, host_port, path, query parameter pairs (in order) and fragment
are the same; this includes the URIs without authority whose path starts with two
slashes. -/
theorem parse_to_string_parse_round_trip (t : Bytes) (u : URI)
    (h : URI.Parse t = Except.ok u) :
    URI.Parse (URI.ToString u) = Except.ok u := by
  obtain ⟨scheme, ui, hp, path, pairs, frag, rfl, hs1, hs2, hs3, ha, hk⟩ :=
    Parse_wellformed t u h
  exact Parse_ToString_of_wellformed scheme ui hp path pairs frag hs1 hs2 hs3 ha hk

/-- The round trip of C21 at two texts: one with every part, percent-escapes and skipped
empty keys, and one without authority whose path decodes to a text that starts with two
slashes and is therefore printed behind an empty authority. -/
theorem parse_to_string_parse_round_trip_witness :
    (URI.Parse (lit "HTTP://us%40er@ho%2Fst:80/a%20b//c?k=v&&=x&y&a%3D=b%26#fr%23ag")
        = Except.ok (URI.URI (lit "http") (lit "us@er") (lit "ho/st:80") (lit "/a b//c")
            [{ key := lit "k", value := lit "v" }, { key := lit "y", value := [] },
              { key := lit "a=", value := lit "b&" }] (lit "fr#ag"))
      ∧ URI.Parse (URI.ToString (URI.URI (lit "http") (lit "us@er") (lit "ho/st:80")
            (lit "/a b//c")
            [{ key := lit "k", value := lit "v" }, { key := lit "y", value := [] },
              { key := lit "a=", value := lit "b&" }] (lit "fr#ag")))
        = Except.ok (URI.URI (lit "http") (lit "us@er") (lit "ho/st:80") (lit "/a b//c")
            [{ key := lit "k", value := lit "v" }, { key := lit "y", value := [] },
              { key := lit "a=", value := lit "b&" }] (lit "fr#ag")))
    ∧ (URI.Parse (lit "s:%2F%2Fa") = Except.ok (URI.URI (lit "s") [] [] (lit "//a") [] [])
      ∧ URI.ToString (URI.URI (lit "s") [] [] (lit "//a") [] []) = lit "s:////a"
      ∧ URI.Parse (URI.ToString (URI.URI (lit "s") [] [] (lit "//a") [] []))
        = Except.ok (URI.URI (lit "s") [] [] (lit "//a") [] [])) :=
  ⟨⟨rfl, parse_to_string_parse_round_trip
      (lit "HTTP://us%40er@ho%2Fst:80/a%20b//c?k=v&&=x&y&a%3D=b%26#fr%23ag") _ rfl⟩,
    ⟨rfl, rfl, parse_to_string_parse_round_trip (lit "s:%2F%2Fa") _ rfl⟩⟩

/-- C22: PercentDecode scans left to right; a percent sign followed by two hexadecimal
digits becomes the one byte the digits denote and the scan goes on after the digits;
any other byte, among them a percent sign that is not followed by two hexadecimal
digits or has fewer than two bytes after it, is copied and the scan goes on with the
next byte; a text without a percent sign is returned unchanged. -/
theorem percent_decode_replaces_valid_triplets :
    URI.PercentDecode [] = []
    ∧ (∀ (a b : Byte) (rest : Bytes), ascii_isxdigit a = true → ascii_isxdigit b = true →
        URI.PercentDecode (ch '%' :: a :: b :: rest)
          = Fin.ofNat (hex_value a * 16 + hex_value b) :: URI.PercentDecode rest)
    ∧ (∀ (c : Byte) (rest : Bytes),
        (c ≠ ch '%' ∨
          ∀ a b t, rest = a :: b :: t → ¬ (ascii_isxdigit a = true ∧ ascii_isxdigit b = true)) →
        URI.PercentDecode (c :: rest) = c :: URI.PercentDecode rest)
    ∧ (∀ s : Bytes, ch '%' ∉ s → URI.PercentDecode s = s) := by
  refine ⟨rfl, ?_, ?_, ?_⟩
  · intro a b rest ha hb
    rw [PercentDecode_eq_loop, PercentDecode_eq_loop, PercentDecodeLoop_percent_xdigits a b rest ha hb]
  · intro c rest h
    rw [PercentDecode_eq_loop, PercentDecode_eq_loop]
    rcases h with h | h
    · exact PercentDecodeLoop_cons_of_ne c rest h
    · exact PercentDecodeLoop_cons_of_not_triplet c rest h
  · intro s h
    rw [PercentDecode_eq_loop, PercentDecodeLoop_of_not_mem s h]

namespace promise_detail

/-- C24: under the Once token with an argument type, a callable `f` that takes no arguments
and returns a Poll (first half) or a plain value (second half) is wrapped as the
promise: Make(a) does not invoke `f` (the world and its call log are unchanged), the
promise is the same for every argument, and each poll of it invokes `f()` once and
returns its result as a Poll. Under the Repeatable token no overload is viable for this
callable: the Repeated factory's Make does not build and kIsRepeatedPromiseFactory is
false. -/
theorem once_drops_argument_and_wraps_nullary_callable {S W A T P : Type}
    (resultPoll : P → W → Poll T × P × W)
    (f : S → W → Poll T × S × W) (g : S → W → T × S × W) (f_ : S) (a a2 : A)
    (w : World W A) :
    (OncePromiseFactory.Make
        { withArg := (none : Option ((sh : ResultShape) × (S → A → W → sh.Val T P × S × W))),
          noArg := some ⟨ResultShape.poll, f⟩, resultPoll := resultPoll } f_ a w
        = some (MadePromise.wrapped ResultShape.poll f f_, w)
      ∧ OncePromiseFactory.Make
        { withArg := (none : Option ((sh : ResultShape) × (S → A → W → sh.Val T P × S × W))),
          noArg := some ⟨ResultShape.poll, f⟩, resultPoll := resultPoll } f_ a2 w
        = OncePromiseFactory.Make
        { withArg := (none : Option ((sh : ResultShape) × (S → A → W → sh.Val T P × S × W))),
          noArg := some ⟨ResultShape.poll, f⟩, resultPoll := resultPoll } f_ a w
      ∧ (∀ (s : S) (w2 : World W A),
          (MadePromise.wrapped ResultShape.poll f s : MadePromise S W A T P).poll w2
            = some (Poll.map Payload.value (f s w2.ext).1,
                MadePromise.wrapped ResultShape.poll f (f s w2.ext).2.1,
                { ext := (f s w2.ext).2.2, calls := w2.calls ++ [CallEvent.noArg] }))
      ∧ RepeatedPromiseFactory.Make
        { withArg := (none : Option ((sh : ResultShape) × (S → A → W → sh.Val T P × S × W))),
          noArg := some ⟨ResultShape.poll, f⟩, resultPoll := resultPoll } f_ a w = none)
    ∧ (OncePromiseFactory.Make
        { withArg := (none : Option ((sh : ResultShape) × (S → A → W → sh.Val T P × S × W))),
          noArg := some ⟨ResultShape.plain, g⟩, resultPoll := resultPoll } f_ a w
        = some (MadePromise.wrapped ResultShape.plain g f_, w)
      ∧ OncePromiseFactory.Make
        { withArg := (none : Option ((sh : ResultShape) × (S → A → W → sh.Val T P × S × W))),
          noArg := some ⟨ResultShape.plain, g⟩, resultPoll := resultPoll } f_ a2 w
        = OncePromiseFactory.Make
        { withArg := (none : Option ((sh : ResultShape) × (S → A → W → sh.Val T P × S × W))),
          noArg := some ⟨ResultShape.plain, g⟩, resultPoll := resultPoll } f_ a w
      ∧ (∀ (s : S) (w2 : World W A),
          (MadePromise.wrapped ResultShape.plain g s : MadePromise S W A T P).poll w2
            = some (Poll.ready (Payload.value (g s w2.ext).1),
                MadePromise.wrapped ResultShape.plain g (g s w2.ext).2.1,
                { ext := (g s w2.ext).2.2, calls := w2.calls ++ [CallEvent.noArg] }))
      ∧ RepeatedPromiseFactory.Make
        { withArg := (none : Option ((sh : ResultShape) × (S → A → W → sh.Val T P × S × W))),
          noArg := some ⟨ResultShape.plain, g⟩, resultPoll := resultPoll } f_ a w = none)
    ∧ resolve (onceSite true) { withArg := none, noArg := some ResultShape.poll }
        = Resolution.selected Overload.onceDropArg
    ∧ resolve (onceSite true) { withArg := none, noArg := some ResultShape.plain }
        = Resolution.selected Overload.onceDropArg
    ∧ viableSet (repeatedSite true) { withArg := none, noArg := some ResultShape.poll } = []
    ∧ viableSet (repeatedSite true) { withArg := none, noArg := some ResultShape.plain } = []
    ∧ kIsRepeatedPromiseFactory true { withArg := none, noArg := some ResultShape.poll } = false
    ∧ kIsRepeatedPromiseFactory true { withArg := none, noArg := some ResultShape.plain }
        = false :=
  ⟨⟨rfl, rfl, fun _ _ => rfl, rfl⟩, ⟨rfl, rfl, fun _ _ => rfl, rfl⟩,
    by decide, by decide, by decide, by decide, by decide, by decide⟩

end promise_detail

/-- C25: PercentEncode replaces every byte the predicate rejects by a percent sign and the
two upper-case hexadecimal digits of the byte (high digit first) and keeps every other
byte; so its output consists of allowed bytes, percent signs and upper-case hexadecimal
digits, and a text of allowed bytes only is returned unchanged. PercentEncodePath and
PercentEncodeAuthority are PercentEncode with IsPathChar and IsAuthorityChar. -/
theorem percent_encode_keeps_allowed_and_escapes_the_rest (allowed : Byte → Bool) :
    (∀ s : Bytes, PercentEncode s allowed
        = s.flatMap (fun c =>
            if allowed c then [c]
            else [ch '%', upper_hex_digit (c.val / 16), upper_hex_digit (c.val % 16)]))
    ∧ (∀ (s : Bytes) (x : Byte), x ∈ PercentEncode s allowed →
        allowed x = true ∨ x = ch '%' ∨ x ∈ lit "0123456789ABCDEF")
    ∧ (∀ s : Bytes, (∀ c ∈ s, allowed c = true) → PercentEncode s allowed = s)
    ∧ (∀ s : Bytes, URI.PercentEncodePath s = PercentEncode s IsPathChar)
    ∧ (∀ s : Bytes, URI.PercentEncodeAuthority s = PercentEncode s IsAuthorityChar) := by
  refine ⟨?_, mem_PercentEncode allowed, PercentEncode_of_all_allowed allowed,
    fun _ => rfl, fun _ => rfl⟩
  intro s
  induction s with
  | nil => rfl
  | cons c rest ih => rw [PercentEncode_cons, ih, List.flatMap_cons]

/-- C26: for every byte string, PercentDecode undoes PercentEncodePath and
PercentEncodeAuthority. -/
theorem percent_decode_undoes_percent_encode (s : Bytes) :
    URI.PercentDecode (URI.PercentEncodePath s) = s
    ∧ URI.PercentDecode (URI.PercentEncodeAuthority s) = s :=
  ⟨PercentDecode_PercentEncode IsPathChar (by decide) s,
    PercentDecode_PercentEncode IsAuthorityChar (by decide) s⟩

/-- C27: Parse returns an error exactly when the text has no colon or starts with one,
the scheme (what stands before the first colon) has a byte outside `[A-Za-z0-9+-.]`
or does not begin with a letter, a question mark begins a query that is empty, the
query has a byte that is neither a query or fragment character nor a percent sign, or
the fragment has such a byte; every other text is accepted. -/
theorem parse_fails_exactly_on_listed_conditions (t : Bytes) :
    ((∃ e, URI.Parse t = Except.error e) ↔ spec_parse_fails t = true)
    ∧ ((∃ u, URI.Parse t = Except.ok u) ↔ spec_parse_fails t = false) := by
  have h := Parse_agrees_with_spec t
  cases hp : URI.Parse t with
  | error e =>
    rw [hp] at h
    have hs : spec_parse_fails t = true := by simpa [Except.toBool] using h
    simp [hs]
  | ok u =>
    rw [hp] at h
    have hs : spec_parse_fails t = false := by simpa [Except.toBool] using h
    simp [hs]

/-- C28: copy assignment leaves the entries of the previous value in the query parameter
map. With `a` parsed from "s:p?x=1" and `b` parsed from "s:p", which has no query, the
map of `a` has one entry; after `a = b` the object has no pairs, yet its map still has
one entry, because the operator never clears the map and its loop runs over no pair; a
copy constructed from `b` has an empty map. The same happens for every previous value
of the left-hand side: after the assignment of `b` its map is the map it had. -/
theorem copy_assignment_keeps_stale_map_entries :
    ∃ a b : URI, URI.Parse (lit "s:p?x=1") = Except.ok a
      ∧ URI.Parse (lit "s:p") = Except.ok b
      ∧ a.query_parameter_map_.length = 1
      ∧ b.query_parameter_pairs_ = []
      ∧ (∃ r, URI.operator_assign a b = some r
          ∧ r.query_parameter_pairs_ = [] ∧ r.query_parameter_map_.length = 1)
      ∧ (URI.URI_copy b).query_parameter_pairs_ = []
      ∧ (URI.URI_copy b).query_parameter_map_ = []
      ∧ (∀ self : URI, ∃ r, URI.operator_assign self b = some r
          ∧ r.query_parameter_pairs_ = []
          ∧ r.query_parameter_map_ = self.query_parameter_map_) := by
  refine ⟨URI.URI (lit "s") [] [] (lit "p") [{ key := lit "x", value := lit "1" }] [],
    URI.URI (lit "s") [] [] (lit "p") [] [], rfl, rfl, rfl, rfl, ⟨_, rfl, rfl, rfl⟩, rfl, rfl, ?_⟩
  intro self
  have h : URI.operator_assign self (URI.URI (lit "s") [] [] (lit "p") [] [])
      = some (URI.mk (AsciiStrToLower (lit "s")) [] [] (lit "p") self.query_parameter_map_ [] []) := by
    simp [URI.operator_assign, URI.URI, assign_all]
  exact ⟨_, h, rfl, rfl⟩

end grpc_core

/-- C29: the value rst_stream_client_validator returns is the opposite of what its comments
and its log line describe. A buffer of one slice of thirteen bytes 255, which is no
RST_STREAM frame, is accepted; an RST_STREAM frame for stream 1 with the error code bytes
1, 2, 3, 4 is rejected; a buffer of fewer than thirteen bytes is rejected. -/
theorem rst_stream_client_validator_accepts_other_frames :
    is_rst_stream_frame (List.replicate 13 255) = false
    ∧ rst_stream_client_validator { slices := [List.replicate 13 255] } = some true
    ∧ is_rst_stream_frame [0, 0, 4, 3, 0, 0, 0, 0, 1, 1, 2, 3, 4] = true
    ∧ rst_stream_client_validator { slices := [[0, 0, 4, 3, 0, 0, 0, 0, 1, 1, 2, 3, 4]] }
        = some false
    ∧ rst_stream_client_validator { slices := [List.replicate 12 255] } = some false := by
  decide

namespace grpc
namespace testing

/-- C30: with one worker, two servers and dynamic sizing of the clients (num_clients = 0)
the difference `workers.size() - num_servers` wraps around to `2 ^ 64 - 1`, the sum in
the worker-count check wraps around to 1, so the check passes; the list is trimmed to
one entry, fewer than num_servers, and the server start-up loop reads `workers[1]`
out of range. -/
theorem run_scenario_check_passes_with_too_few_workers :
    RunScenarioSizing ["w0"] { num_clients := 0, num_servers := 2 }
      = SizingOutcome.read_out_of_range 1 ["w0"] (2 ^ 64 - 1)
    ∧ ((2 ^ 64 - 1) + 2) % kSizeModulus = 1
    ∧ ¬ (2 ≤ ["w0"].length) := by
  decide

end testing
end grpc
